import Mathlib

/-!
Verification of the turn-engine and answer-matching core of the
Yamanote-line game repository.

Shallow embedding of:
  * src/model/answer_list.py   (AnswerList: catalog load/save/match)
  * src/model/player.py        (Player: budgets, elimination, history)
  * src/controller/game_controller.py  (GameController: turn engine)

Modelling conventions:
  * Text normalization (`normalize_text` = NFKC + strip + lower) and cell
    stripping (`str.strip`) are out-of-scope primitives per the spec; they are
    passed in as function parameters `norm` and `strip`.
  * Python dicts are association lists where assignment conses a new binding
    in front (lookup finds the newest binding, i.e. assignment overwrites).
  * Python sets of strings are lists used only through membership.
  * Monotonic time is modelled in integer milliseconds (`Int`); the countdown
    field `_remaining_ms` is an `Int` so the floor at zero is a real fact.
  * Wall-clock timestamps in answer history records are diagnostic only and
    are not modelled; a history record keeps the normalized text.
  * Observer callbacks are modelled as a list of emitted events.
-/

/-- Python `dict.get`: the value of the newest binding of `k`, if any. -/
def dictGet {α : Type} (m : List (String × α)) (k : String) : Option α :=
  (m.find? (fun e => e.1 == k)).map (fun e => e.2)

/-- Python dict assignment `m[k] = v` (new binding shadows older ones). -/
def dictPut {α : Type} (m : List (String × α)) (k : String) (v : α) :
    List (String × α) :=
  (k, v) :: m

/-- Deduplicate keeping the first occurrence (Python dict key order). -/
def dedupFirst : List String → List String
  | [] => []
  | x :: xs => x :: (dedupFirst xs).filter (fun y => !(y == x))

/-- Keys of a Python dict in insertion order (first assignment wins for
position; our assoc list conses newest first, so reverse then dedup). -/
def dictKeys {α : Type} (m : List (String × α)) : List String :=
  dedupFirst (m.reverse.map (fun e => e.1))

/-- `dict.values()` in key order. -/
def dictValues (m : List (String × String)) : List String :=
  (dictKeys m).filterMap (fun k => dictGet m k)

/-- The catalog (`AnswerList` in src/model/answer_list.py).
`items` is the ordered list of display keys, `used` the consumed set,
and the four maps mirror `_match_map`, `_class_map`, `_element_map`,
`_display_map`. -/
structure AnswerList where
  items : List String
  used : List String
  matchMap : List (String × String)
  classMap : List (String × String)
  elementMap : List (String × String)
  displayMap : List (String × (List String × List String))
  deriving Repr, DecidableEq

namespace AnswerList

/-- The acceptance test of the `find_match` loop body applied to one
candidate `disp` (answer_list.py lines 121-132): skip used entries, accept
on full match against `_match_map` or, when `previous_class` is truthy
(Python: non-None and non-empty), on element match with equal class key. -/
def findMatchTest (norm : String → String) (al : AnswerList) (text : String)
    (prev : Option String) (disp : String) : Bool :=
  !(al.used.contains disp) &&
    (dictGet al.matchMap disp == some (norm text) ||
      (match prev with
       | some s =>
           !(s == "") && dictGet al.elementMap disp == some (norm text) &&
             dictGet al.classMap disp == some s
       | none => false))

/-- `AnswerList.find_match` (answer_list.py lines 107-133): scan `items` in
order and return the first candidate passing the loop body's test.  The
`for`/`continue` loop is rendered as `List.find?`. -/
def find_match (norm : String → String) (al : AnswerList) (text : String)
    (prev : Option String) : Option String :=
  al.items.find? (findMatchTest norm al text prev)

/-- `AnswerList.mark_used` (answer_list.py lines 135-144): find a match and
add it to `used` (set add: no duplicate membership entries). -/
def mark_used (norm : String → String) (al : AnswerList) (text : String)
    (prev : Option String) : AnswerList × Option String :=
  match al.find_match norm text prev with
  | some matched =>
      ({ al with used := if al.used.contains matched then al.used
                         else matched :: al.used }, some matched)
  | none => (al, none)

/-- `AnswerList.remaining_count` (answer_list.py lines 146-147). -/
def remaining_count (al : AnswerList) : Nat :=
  (al.items.filter (fun i => !(al.used.contains i))).length

end AnswerList

/-- Elements at even positions 0, 2, 4, … of a row (`row[i]` for
`i in range(0, len(row), 2)`). -/
def pickEven : List String → List String
  | [] => []
  | [a] => [a]
  | a :: _ :: t => a :: pickEven t

/-- Elements at odd positions 1, 3, 5, … of a row (`row[i]` for
`i in range(1, len(row), 2)`). -/
def pickOdd : List String → List String
  | [] => []
  | [_] => []
  | _ :: b :: t => b :: pickOdd t

/-- `displays` of one CSV row (answer_list.py line 55): stripped cells at
even indices whose stripped form is non-empty. -/
def rowDisplays (strip : String → String) (row : List String) : List String :=
  ((pickEven row).map strip).filter (fun s => !(s == ""))

/-- `matches` of one CSV row (answer_list.py line 56): stripped cells at
odd indices whose stripped form is non-empty. -/
def rowMatches (strip : String → String) (row : List String) : List String :=
  ((pickOdd row).map strip).filter (fun s => !(s == ""))

/-- Separator test (answer_list.py line 44): `not row or all cells blank`.
`List.all` on `[]` is `true`, covering the `not row` disjunct. -/
def isSepRow (strip : String → String) (row : List String) : Bool :=
  row.all (fun c => strip c == "")

/-- The normalized display key a row contributes
(answer_list.py lines 59-60). -/
def rowKey (strip norm : String → String) (row : List String) : String :=
  norm (String.intercalate "-" (rowDisplays strip row))

namespace AnswerList

/-- The empty catalog (the freshly initialised accumulators of
`load_from_csv`). -/
def empty : AnswerList :=
  { items := [], used := [], matchMap := [], classMap := [],
    elementMap := [], displayMap := [] }

/-- Processing of one unanswered row (answer_list.py lines 50-69): skip rows
lacking displays or matches or whose normalized display key is empty;
otherwise append the key to `items` and record the four derived maps.
`matches[0]` / `matches[-1]` are total here because the guard ensures the
list is non-empty; the `""` defaults are unreachable. -/
def preStep (strip norm : String → String) (al : AnswerList)
    (row : List String) : AnswerList :=
  let ds := rowDisplays strip row
  let ms := rowMatches strip row
  if ds.isEmpty || ms.isEmpty then al
  else
    let nd := norm (String.intercalate "-" ds)
    if nd == "" then al
    else
      { al with
        items := al.items ++ [nd]
        matchMap := dictPut al.matchMap nd (norm (String.join ms))
        classMap := dictPut al.classMap nd (norm (ms.headD ""))
        elementMap := dictPut al.elementMap nd (norm (ms.getLastD ""))
        displayMap := dictPut al.displayMap nd (ds, ms) }

/-- Processing of one answered row (answer_list.py lines 72-94): same
parsing; append to `items` (and fill the derived maps) only when the key is
not already present; record the original structure only when absent; always
mark the key used.  `used` is a set, so adding an existing member is a
no-op. -/
def postStep (strip norm : String → String) (al : AnswerList)
    (row : List String) : AnswerList :=
  let ds := rowDisplays strip row
  let ms := rowMatches strip row
  if ds.isEmpty || ms.isEmpty then al
  else
    let nd := norm (String.intercalate "-" ds)
    if nd == "" then al
    else
      let al1 :=
        if al.items.contains nd then al
        else
          { al with
            items := al.items ++ [nd]
            matchMap := dictPut al.matchMap nd (norm (String.join ms))
            classMap := dictPut al.classMap nd (norm (ms.headD ""))
            elementMap := dictPut al.elementMap nd (norm (ms.getLastD "")) }
      let al2 :=
        if (dictGet al1.displayMap nd).isSome then al1
        else { al1 with displayMap := dictPut al1.displayMap nd (ds, ms) }
      { al2 with
        used := if al2.used.contains nd then al2.used else nd :: al2.used }

/-- `AnswerList.load_from_csv` (answer_list.py lines 23-101) on already
decoded rows (file IO and CSV decoding are out of scope).  The separator is
the first all-blank row; rows before it are unanswered, rows after it are
answered; with no separator every row is unanswered. -/
def load_from_tabular_rows (strip norm : String → String)
    (rows : List (List String)) : AnswerList :=
  let pre := rows.takeWhile (fun r => !(isSepRow strip r))
  let rest := rows.dropWhile (fun r => !(isSepRow strip r))
  (rest.drop 1).foldl (postStep strip norm) (pre.foldl (preStep strip norm) empty)

/-- `row.extend([d, m])` loop of `save_to_csv`
(answer_list.py lines 165-167 and 179-181). -/
def interleavePairs : List (String × String) → List String
  | [] => []
  | p :: ps => p.1 :: p.2 :: interleavePairs ps

/-- One output record of `save_to_csv`: rebuilt from `_display_map` when
available, else the two-column fallback (answer_list.py lines 162-171). -/
def rowFor (al : AnswerList) (nd : String) : List String :=
  match dictGet al.displayMap nd with
  | some dm => interleavePairs (dm.1.zip dm.2)
  | none => [nd, (dictGet al.matchMap nd).getD ""]

/-- `AnswerList.save_to_csv` (answer_list.py lines 152-186) producing rows:
unanswered entries in `items` order, one empty separator row, then answered
entries in `items` order. -/
def save_to_tabular (al : AnswerList) : List (List String) :=
  ((al.items.filter (fun i => !(al.used.contains i))).map al.rowFor)
    ++ [[]]
    ++ ((al.items.filter (fun i => al.used.contains i)).map al.rowFor)

end AnswerList

/-- The full-form / short-form acceptance rule exactly as claim C1 words it:
normalized input equals the entry's `fullMatch`, or normalized input equals
the entry's `elementKey` and the given previous category equals the entry's
`categoryKey`. -/
def claimMatchRule (norm : String → String) (al : AnswerList) (text : String)
    (prev : Option String) (disp : String) : Prop :=
  dictGet al.matchMap disp = some (norm text) ∨
    (dictGet al.elementMap disp = some (norm text) ∧
      ∃ s, prev = some s ∧ dictGet al.classMap disp = some s)

instance (norm : String → String) (al : AnswerList) (text : String)
    (prev : Option String) (disp : String) :
    Decidable (claimMatchRule norm al text prev disp) := by
  unfold claimMatchRule
  cases prev <;> simp <;> infer_instance

/-- `find?` returns an element at some position whose predicate holds while
every earlier element fails the predicate. -/
theorem find?_first_position {α : Type} (p : α → Bool) (l : List α) (a : α)
    (h : l.find? p = some a) :
    ∃ i, l.get? i = some a ∧ p a = true ∧
      ∀ j b, j < i → l.get? j = some b → p b = false := by
  induction l with
  | nil => simp [List.find?] at h
  | cons x xs ih =>
    by_cases hx : p x
    · refine ⟨0, ?_, ?_, ?_⟩
      · simp only [List.find?_cons, hx] at h
        cases h
        rfl
      · simp only [List.find?_cons, hx] at h
        cases h
        exact hx
      · intro j b hj hb
        omega
    · simp only [List.find?_cons, Bool.not_eq_true] at h
      rw [Bool.eq_false_iff.mpr hx] at h
      obtain ⟨i, hi, hpa, hfirst⟩ := ih h
      refine ⟨i + 1, by simpa using hi, hpa, ?_⟩
      intro j b hj hb
      cases j with
      | zero =>
          simp only [List.get?] at hb
          cases hb
          exact Bool.eq_false_iff.mpr hx
      | succ j' =>
          exact hfirst j' b (by omega) (by simpa using hb)

/-- `Player` (src/model/player.py).  Numeric fields are `Int` (Python ints);
`remaining_ms` models the transient `_remaining_ms` attribute whose
`getattr` default is 0.  History records keep only the normalized text
(timestamps are diagnostic wall-clock data, out of scope). -/
structure Player where
  id : String
  name : String
  base_seconds : Int
  pass_limit : Int
  wrong_answer_limit : Int
  remaining_passes : Int
  remaining_wrong_answers : Int
  eliminated : Bool
  correct_answers : List String
  wrong_answers : List String
  remaining_ms : Int
  deriving Repr, DecidableEq

namespace Player

/-- `Player.reset_runtime` (player.py lines 33-38). -/
def reset_runtime (p : Player) : Player :=
  { p with
    remaining_passes := p.pass_limit
    remaining_wrong_answers := p.wrong_answer_limit
    eliminated := false
    correct_answers := []
    wrong_answers := [] }

/-- `Player.consume_wrong_answer` (player.py lines 40-45): decrement if
positive and report `true`, else leave unchanged and report `false`. -/
def consume_wrong_answer (p : Player) : Player × Bool :=
  if p.remaining_wrong_answers > 0 then
    ({ p with remaining_wrong_answers := p.remaining_wrong_answers - 1 }, true)
  else (p, false)

/-- `Player.reset_wrong_answers` (player.py lines 47-49). -/
def reset_wrong_answers (p : Player) : Player :=
  { p with remaining_wrong_answers := p.wrong_answer_limit }

/-- `Player.can_pass` (player.py lines 51-52). -/
def can_pass (p : Player) : Bool :=
  p.remaining_passes > 0

/-- `Player.consume_pass` (player.py lines 54-58). -/
def consume_pass (p : Player) : Player × Bool :=
  if p.can_pass then
    ({ p with remaining_passes := p.remaining_passes - 1 }, true)
  else (p, false)

/-- `Player.record_answer` (player.py lines 60-70): append the normalized
text to the matching history list. -/
def record_answer (norm : String → String) (p : Player) (text : String)
    (is_correct : Bool) : Player :=
  if is_correct then
    { p with correct_answers := p.correct_answers ++ [norm text] }
  else
    { p with wrong_answers := p.wrong_answers ++ [norm text] }

end Player

/-- Observer callbacks of the controller, modelled as emitted events
(game_controller.py lines 10-19 and the `_emit_*` helpers). -/
inductive GEvent where
  | note (level msg : String)
  | playerAdded (p : Player)
  | playerState (name : String) (remainingMs remainingPasses remainingWrongs : Int)
      (eliminated : Bool)
  | gameEnded (reason : String)
  | catalogLoaded (total : Nat)
  | answersUpdated (remaining answered : List String)
  | soundEvent (kind : String)
  | allPlayers (ps : List Player)
  | currentPlayer (name : Option String)
  | runningState (b : Bool)
  deriving Repr, DecidableEq

/-- The mutable state of `GameController` (game_controller.py lines 28-50).
`last_tick` is the monotonic reference `_last_tick_monotonic` in integer
milliseconds. -/
structure GameController where
  players : List Player
  answer_list : Option AnswerList
  current_idx : Nat
  is_running : Bool
  last_tick : Option Int
  answered_order : List String
  last_answered_class : Option String
  deriving Repr, DecidableEq

namespace GameController

/-- Freshly constructed controller (game_controller.py `__init__`). -/
def init : GameController :=
  { players := [], answer_list := none, current_idx := 0, is_running := false,
    last_tick := none, answered_order := [], last_answered_class := none }

/-- The `_emit_player_state` payload for one player
(game_controller.py lines 79-83). -/
def emitPlayerState (p : Player) : GEvent :=
  .playerState p.name p.remaining_ms p.remaining_passes
    p.remaining_wrong_answers p.eliminated

/-- The scan loop of `current_player` (game_controller.py lines 383-387):
starting offset `i`, try up to `fuel` indices `(current_idx + i) % n` and
return the first holding a non-eliminated player.  The `none` arm of the
inner match is unreachable because the probed index is `< n`. -/
def firstActiveAux (ps : List Player) (c : Nat) : Nat → Nat → Option Nat
  | 0, _ => none
  | fuel + 1, i =>
      let idx := (c + i) % ps.length
      match ps[idx]? with
      | some p => if p.eliminated then firstActiveAux ps c fuel (i + 1) else some idx
      | none => none

/-- `current_player` (game_controller.py lines 379-388), index form: resolve
and persist the index of the first non-eliminated player at or after
`current_idx`, wrapping once; `none` if the roster is empty or fully
eliminated. -/
def current_player_idx (st : GameController) : GameController × Option Nat :=
  match firstActiveAux st.players st.current_idx st.players.length 0 with
  | some idx => ({ st with current_idx := idx }, some idx)
  | none => (st, none)

/-- `current_player` returning the resolved player itself. -/
def current_player (st : GameController) : GameController × Option Player :=
  match st.current_player_idx with
  | (st1, some idx) => (st1, st1.players[idx]?)
  | (st1, none) => (st1, none)

/-- `_emit_current_player` (game_controller.py lines 89-93): resolving the
current player persists `current_idx`; the event carries the name. -/
def emitCurrent (st : GameController) : GameController × GEvent :=
  match st.current_player with
  | (st1, cp) => (st1, .currentPlayer (cp.map (fun p => p.name)))

/-- `stop_game` (game_controller.py lines 183-190). -/
def stop_game (st : GameController) : GameController × List GEvent :=
  let st := { st with is_running := false }
  let evs := [GEvent.note "info" "ゲーム停止", .gameEnded "stopped",
    .allPlayers st.players]
  let (st, ec) := st.emitCurrent
  (st, evs ++ [ec, .runningState st.is_running])

/-- `_end_if_finished` (game_controller.py lines 410-425): treat an all-
eliminated roster or an exhausted catalog exactly as an explicit stop. -/
def end_if_finished (st : GameController) : (GameController × Bool) × List GEvent :=
  if !st.players.isEmpty && st.players.all (fun p => p.eliminated) then
    let (st, evs) := st.stop_game
    ((st, true), evs)
  else
    match st.answer_list with
    | some al =>
        if al.remaining_count == 0 then
          let (st, evs) := st.stop_game
          ((st, true), evs)
        else ((st, false), [])
    | none => ((st, false), [])

/-- The scan loop of `_advance_turn_after_event`
(game_controller.py lines 397-401): offsets `i = 1 .. n`; first candidate
`(current_idx + i) % n` holding a non-eliminated player. -/
def findNextAux (ps : List Player) (c : Nat) : Nat → Nat → Option Nat
  | 0, _ => none
  | fuel + 1, i =>
      let cand := (c + i) % ps.length
      match ps[cand]? with
      | some p => if p.eliminated then findNextAux ps c fuel (i + 1) else some cand
      | none => none

/-- Tail of `_advance_turn_after_event` (game_controller.py lines 402-408):
re-resolve the current player, reset its countdown to `base_seconds` and
emit the trailing notifications. -/
def advanceResolve (st : GameController) (evs : List GEvent) :
    GameController × List GEvent :=
  match st.current_player_idx with
  | (st, some j) =>
      match st.players[j]? with
      | some np =>
          let np := { np with remaining_ms := np.base_seconds * 1000 }
          let st := { st with players := st.players.set j np }
          let evs := evs ++ [emitPlayerState np, .allPlayers st.players]
          let (st, ec) := st.emitCurrent
          (st, evs ++ [ec])
      | none =>
          let evs := evs ++ [GEvent.allPlayers st.players]
          let (st, ec) := st.emitCurrent
          (st, evs ++ [ec])
  | (st, none) =>
      let evs := evs ++ [GEvent.allPlayers st.players]
      let (st, ec) := st.emitCurrent
      (st, evs ++ [ec])

/-- `_advance_turn_after_event` (game_controller.py lines 390-408).  The
`reason` argument is carried like in the source, which never reads it. -/
def advance_turn (st : GameController) (_reason : String) :
    GameController × List GEvent :=
  let ((st, fin), evs) := st.end_if_finished
  if fin then (st, evs)
  else if st.players.isEmpty then
    (st, evs ++ [GEvent.note "info" "プレイヤーがいません"])
  else
    let st :=
      match findNextAux st.players st.current_idx st.players.length 1 with
      | some cand => { st with current_idx := cand }
      | none => st
    advanceResolve st evs

/-- `tick` (game_controller.py lines 352-377).  `now` is the monotonic clock
reading in milliseconds; `int(elapsed * 1000)` becomes `now - last`. -/
def tick (st : GameController) (now : Int) : GameController × List GEvent :=
  if !st.is_running then (st, [])
  else
    match st.last_tick with
    | none => ({ st with last_tick := some now }, [])
    | some last =>
        let elapsed := now - last
        let st := { st with last_tick := some now }
        match st.current_player_idx with
        | (st, none) =>
            let evs := [GEvent.note "info" "アクティブなプレイヤーがいません"]
            let ((st, _), evs2) := st.end_if_finished
            let evs := evs ++ evs2 ++ [GEvent.allPlayers st.players]
            let (st, ec) := st.emitCurrent
            (st, evs ++ [ec])
        | (st, some i) =>
            match st.players[i]? with
            | some p =>
                let p := { p with remaining_ms := max 0 (p.remaining_ms - elapsed) }
                let st := { st with players := st.players.set i p }
                if p.remaining_ms == 0 then
                  let p := { p with eliminated := true }
                  let st := { st with players := st.players.set i p }
                  let evs := [GEvent.note "info"
                      (p.name ++ " がタイムアウトで脱落しました"),
                    emitPlayerState p]
                  let (st, evs2) := st.advance_turn "timeout"
                  let evs := evs ++ evs2 ++ [GEvent.allPlayers st.players]
                  let (st, ec) := st.emitCurrent
                  (st, evs ++ [ec])
                else
                  let evs := [emitPlayerState p, GEvent.allPlayers st.players]
                  let (st, ec) := st.emitCurrent
                  (st, evs ++ [ec])
            | none => (st, [])

/-- `load_csv` (game_controller.py lines 103-130) restricted to its model
content: file relocation, CSV decoding and the saved title are out of scope.
Loads the catalog and rebuilds the answered chronology from the consumed
entries in catalog order. -/
def load_rows (strip norm : String → String) (st : GameController)
    (rows : List (List String)) : GameController × List GEvent :=
  let al := AnswerList.load_from_tabular_rows strip norm rows
  let st := { st with
    answer_list := some al
    answered_order := al.items.filter (fun i => al.used.contains i) }
  (st, [GEvent.catalogLoaded al.items.length,
    .answersUpdated (al.items.filter (fun i => !(al.used.contains i)))
      st.answered_order.reverse,
    .note "info" ("読み込み完了: " ++ toString al.items.length ++ " 件"),
    .allPlayers st.players])

/-- `add_player` (game_controller.py lines 132-147).  The random
`uuid4()[:8]` id is passed in as `pid`. -/
def add_player (norm : String → String) (st : GameController)
    (pid name : String) (base_seconds pass_limit wrong_answer_limit : Int) :
    GameController × List GEvent :=
  if name == "" || name.length > 60 then
    (st, [GEvent.note "error" "名前を1〜60文字で入力してください"])
  else if st.players.any (fun p => norm p.name == norm name) then
    (st, [GEvent.note "error" ("同名のプレイヤーが既に存在します: " ++ name)])
  else
    let p : Player :=
      { id := pid, name := name, base_seconds := base_seconds,
        pass_limit := pass_limit, wrong_answer_limit := wrong_answer_limit,
        remaining_passes := 0, remaining_wrong_answers := 0,
        eliminated := false, correct_answers := [], wrong_answers := [],
        remaining_ms := 0 }
    let p := p.reset_runtime
    let st := { st with players := st.players ++ [p] }
    let evs := [GEvent.playerAdded p,
      .note "info" ("プレイヤー追加: " ++ name), .allPlayers st.players]
    let (st, ec) := st.emitCurrent
    (st, evs ++ [ec])

/-- `start_game` (game_controller.py lines 162-181).  `now` is the captured
monotonic reference. -/
def start_game (st : GameController) (now : Int) :
    GameController × List GEvent :=
  match st.answer_list with
  | none => (st, [GEvent.note "error" "正解リストを読み込んでください"])
  | some _ =>
      if st.players.isEmpty then
        (st, [GEvent.note "error" "プレイヤーがいません"])
      else
        let ps := st.players.map (fun p =>
          { p.reset_runtime with remaining_ms := p.base_seconds * 1000 })
        let st := { st with
          players := ps
          current_idx := 0
          is_running := true
          last_tick := some now }
        let evs := [GEvent.note "info" "ゲーム開始", .allPlayers st.players]
        let (st, ec) := st.emitCurrent
        let evs := evs ++ [ec, .runningState st.is_running]
        match st.current_player with
        | (st, some cp) => (st, evs ++ [emitPlayerState cp])
        | (st, none) => (st, evs)

/-- `unmark_answer` (game_controller.py lines 320-350): move a consumed
entry back to pending (`set.discard` = drop every equal member) and remove
its first occurrence from the chronology (`list.remove`). -/
def unmark_answer (st : GameController) (display_key : String) :
    (GameController × Bool) × List GEvent :=
  match st.answer_list with
  | none => ((st, false), [GEvent.note "error" "回答リストが読み込まれていません"])
  | some al =>
      if al.used.contains display_key then
        let al := { al with
          used := al.used.filter (fun k => !(k == display_key)) }
        let st := { st with
          answer_list := some al
          answered_order := st.answered_order.erase display_key }
        ((st, true),
          [GEvent.answersUpdated
              (al.items.filter (fun x => !(al.used.contains x)))
              st.answered_order.reverse,
            .note "info" (display_key ++ " を未回答に戻しました")])
      else
        ((st, false),
          [GEvent.note "info" ("項目が回答済みではありません: " ++ display_key)])

end GameController

/-- Python `str.rfind` restricted to a single character, on code points:
the index of the last occurrence, `none` when absent (the source's `-1`
return is only reached behind `in` guards). -/
def listRfind (cs : List Char) (c : Char) : Option Nat :=
  ((cs.enum.filter (fun e => e.2 == c)).getLast?).map (fun e => e.1)

/-- The parenthetical extraction of `host_submit_answer`
(game_controller.py lines 200-217): when the text holds both a full-width
open and close parenthesis with the last open before the last close, the
interior of that rightmost pair is the match text; else the same with ASCII
parentheses; else the whole text.  `text[start+1:end]` is
`drop (start+1)` then `take (end-start-1)` on the code points. -/
def extract_answer_text (text : String) : String :=
  let cs := text.toList
  if cs.contains '（' && cs.contains '）' then
    match listRfind cs '（', listRfind cs '）' with
    | some s, some e =>
        if s < e then String.mk ((cs.drop (s + 1)).take (e - (s + 1))) else text
    | _, _ => text
  else if cs.contains '(' && cs.contains ')' then
    match listRfind cs '(', listRfind cs ')' with
    | some s, some e =>
        if s < e then String.mk ((cs.drop (s + 1)).take (e - (s + 1))) else text
    | _, _ => text
  else text

/-- Python `str.startswith`. -/
def strStartsWith (s p : String) : Bool :=
  p.toList.isPrefixOf s.toList

/-- Stable insertion into a list sorted by descending length. -/
def insertByLen (x : String) : List String → List String
  | [] => [x]
  | y :: ys => if x.length > y.length then x :: y :: ys else y :: insertByLen x ys

/-- `sort(key=len, reverse=True)`: stable descending-length sort. -/
def sortByLenDesc (l : List String) : List String :=
  l.foldr insertByLen []

namespace GameController

/-- Best-effort class inference on a wrong answer
(game_controller.py lines 238-245): scan the distinct `_class_map` values by
descending length and pick the first non-empty one the normalized text
starts with.  Python iterates `list(set(...))`, whose order is unspecified;
it is modelled as first-occurrence order (the spec notes equal-length
collisions are not resolved deterministically). -/
def inferWrongClass (al : AnswerList) (t_norm : String) : Option String :=
  let class_values := dedupFirst (dictValues al.classMap)
  (sortByLenDesc class_values).find?
    (fun cv => !(cv == "") && strStartsWith t_norm cv)

/-- Remember the class key of a catalog entry when it is known and
non-empty (game_controller.py lines 233-236 and 275-281 inner step). -/
def classFromKey (al : AnswerList) (d : String) (st : GameController) :
    GameController :=
  match dictGet al.classMap d with
  | some ck => if ck == "" then st else { st with last_answered_class := some ck }
  | none => st

/-- Best-effort class inference on a wrong answer as a state update
(game_controller.py lines 237-245). -/
def inferUpdate (al : AnswerList) (t : String) (st : GameController) :
    GameController :=
  match inferWrongClass al t with
  | some cv => { st with last_answered_class := some cv }
  | none => st

/-- Refresh the class key from the chronology tail after a correct answer
(game_controller.py lines 274-281). -/
def classFromChron (al : AnswerList) (st : GameController) :
    GameController :=
  match st.answered_order.getLast? with
  | some u => classFromKey al u st
  | none => st

/-- Tail of the correct-answer branch of `host_submit_answer`
(game_controller.py lines 283-285 plus the trailing emits): success
notification, player state, turn advancement with reason "correct" and
trailing observer emits. -/
def submitCorrectFinish (st : GameController) (p : Player) (text : String)
    (evs : List GEvent) : GameController × List GEvent :=
  let evs := evs ++ [GEvent.note "info"
      (p.name ++ " が正解しました: " ++ text), emitPlayerState p]
  let (st, evs2) := st.advance_turn "correct"
  let evs := evs ++ evs2 ++ [GEvent.allPlayers st.players]
  let (st, ec) := st.emitCurrent
  (st, evs ++ [ec])

/-- Tail of the wrong-answer branch with budget left
(game_controller.py lines 293-301 plus the trailing emits): no turn
advancement. -/
def submitWrongKeep (st : GameController) (p2 : Player) (text : String) :
    GameController × List GEvent :=
  let evs := [GEvent.note "info"
      (p2.name ++ " の不正解: " ++ text ++ " （残り: " ++
        toString p2.remaining_wrong_answers ++ "）"),
    emitPlayerState p2, .soundEvent "wrong",
    .allPlayers st.players]
  let (st, ec) := st.emitCurrent
  (st, evs ++ [ec])

/-- Tail of the wrong-answer branch with exhausted budget
(game_controller.py lines 288-292 plus the trailing emits): elimination
notice, player state, turn advancement with reason "wrong_limit". -/
def submitWrongLimit (st : GameController) (p2 : Player) (_text : String) :
    GameController × List GEvent :=
  let evs := [GEvent.note "info"
      (p2.name ++ " が誤答制限に達しました"), emitPlayerState p2]
  let (st, evs2) := st.advance_turn "wrong_limit"
  let evs := evs ++ evs2 ++ [GEvent.allPlayers st.players]
  let (st, ec) := st.emitCurrent
  (st, evs ++ [ec])

/-- `host_submit_answer` (game_controller.py lines 192-303). -/
def host_submit_answer (norm : String → String) (st : GameController)
    (text : String) : GameController × List GEvent :=
  match st.current_player_idx with
  | (st, none) => (st, [GEvent.note "error" "現在のプレイヤーがいません"])
  | (st, some i) =>
      match st.answer_list with
      | none => (st, [GEvent.note "error" "正解リストが読み込まれていません"])
      | some al =>
          match st.players[i]? with
          | none => (st, [])
          | some p =>
              let answer_text := extract_answer_text text
              let prev := st.last_answered_class
              let matched := al.find_match norm answer_text prev
              let is_correct := matched.isSome
              let p := p.record_answer norm text is_correct
              let st := { st with players := st.players.set i p }
              let t_norm := norm answer_text
              let st :=
                match matched with
                | some d => classFromKey al d st
                | none => inferUpdate al t_norm st
              if is_correct then
                let (al, marked) := al.mark_used norm answer_text prev
                let used_disp :=
                  match marked with
                  | some u => some u
                  | none => matched
                let st := { st with answer_list := some al }
                let st :=
                  match used_disp with
                  | some u =>
                      if st.answered_order.contains u then st
                      else { st with answered_order := st.answered_order ++ [u] }
                  | none => st
                let evs := [GEvent.answersUpdated
                    (al.items.filter (fun x => !(al.used.contains x)))
                    st.answered_order.reverse,
                  .soundEvent "correct"]
                let p := p.reset_wrong_answers
                let st := { st with players := st.players.set i p }
                let st := classFromChron al st
                submitCorrectFinish st p text evs
              else
                let (p2, ok) := p.consume_wrong_answer
                if ok then
                  let st := { st with players := st.players.set i p2 }
                  submitWrongKeep st p2 text
                else
                  let p2 := { p2 with eliminated := true }
                  let st := { st with players := st.players.set i p2 }
                  submitWrongLimit st p2 text

/-- Tail of a successful roster mutation: emit the new full ordering and
the (persisting) current-player highlight
(game_controller.py lines 503-504). -/
def emitRosterUpdate (st : GameController) (evs : List GEvent) :
    GameController × List GEvent :=
  let (st, ec) := st.emitCurrent
  (st, evs ++ [ec])

/-- The pick loop of `reorder_players_by_name`
(game_controller.py lines 441-446).  `Player` is a plain (non-frozen)
`@dataclass` with the default `eq=True`, which sets `__hash__` to `None`:
instances are unhashable, so the membership test `p not in used` at
line 444 raises `TypeError` as soon as a requested name resolves in the
map (a resolved `Player` is always truthy), and the append/add at
lines 445-446 never execute.  `none` is the raised exception; the loop
completes — necessarily with an empty pick — only when no name
resolves. -/
def reorderPick (nameMap : List (String × Player)) (norm : String → String)
    (names : List String) : Option (List Player) :=
  names.foldl (fun (acc : Option (List Player)) n =>
    match acc with
    | none => none
    | some picked =>
        match dictGet nameMap (norm n) with
        | some _ => none
        | none => some picked) (some [])

/-- `reorder_players_by_name` (game_controller.py lines 427-462).  The
empty-input guard at line 434 returns silently.  Past it, the unhashable
`Player` makes every path raise `TypeError` before the roster assignment
at line 457: at line 444 when some requested name resolves in the name
map (a dict whose later bindings win), otherwise at line 450 on the first
entry of the preserve loop over the (here non-empty) roster.  The
escaping exception is `none`: no state change, no events. -/
def reorder_players_by_name (norm : String → String) (st : GameController)
    (names : List String) : Option (GameController × List GEvent) :=
  if names.isEmpty || st.players.isEmpty then some (st, [])
  else
    match reorderPick
        ((st.players.map (fun p => (norm p.name, p))).reverse) norm names with
    | none => none
    | some _ => none

/-- `move_player` (game_controller.py lines 464-504): clamp the requested
pre-removal target index, shift it left by one when it lies after the
original position, pop and reinsert. -/
def move_player (norm : String → String) (st : GameController)
    (name : String) (target_index : Int) : GameController × List GEvent :=
  match st.players.findIdx? (fun p => norm p.name == norm name) with
  | none => (st, [GEvent.note "error" ("プレイヤーが見つかりません: " ++ name)])
  | some orig_idx =>
      let n := st.players.length
      let target := (max 0 (min target_index (n : Int))).toNat
      let insert_at := if target > orig_idx then target - 1 else target
      if insert_at == orig_idx then (st, [])
      else
        match st.players[orig_idx]? with
        | none => (st, [])
        | some p =>
            let ps := st.players.eraseIdx orig_idx
            let insert_at := min insert_at ps.length
            let ps := ps.insertIdx insert_at p
            let st := { st with
              players := ps
              current_idx := min st.current_idx (ps.length - 1) }
            emitRosterUpdate st [GEvent.allPlayers st.players]

end GameController

/-- What claim C1 asserts of `find_match`: the result, when present, is the
first entry (in `items` order) that is not consumed and satisfies the
full-form or short-form rule; the result is `none` exactly when no entry
qualifies. -/
def findMatchClaimProp (norm : String → String) (al : AnswerList)
    (text : String) (prev : Option String) : Prop :=
  (∀ d, al.find_match norm text prev = some d →
      d ∉ al.used ∧ claimMatchRule norm al text prev d ∧
      ∃ i, al.items.get? i = some d ∧
        ∀ j b, j < i → al.items.get? j = some b →
          ¬(b ∉ al.used ∧ claimMatchRule norm al text prev b)) ∧
  (al.find_match norm text prev = none ↔
      ∀ d ∈ al.items, ¬(d ∉ al.used ∧ claimMatchRule norm al text prev d))

/-- The Boolean scan predicate of `find_match` agrees with the claim's rule
whenever the previous category is not the empty string (the Python code
treats an empty previous category as absent via truthiness; the engine never
passes an empty one). -/
theorem find_match_pred_iff (norm : String → String) (al : AnswerList)
    (text : String) (prev : Option String) (h : prev ≠ some "") (d : String) :
    AnswerList.findMatchTest norm al text prev d = true ↔
    (d ∉ al.used ∧ claimMatchRule norm al text prev d) := by
  cases prev with
  | none => simp [claimMatchRule, AnswerList.findMatchTest]
  | some s =>
      have hs : s ≠ "" := by
        intro hs
        exact h (by rw [hs])
      simp [claimMatchRule, AnswerList.findMatchTest, hs, and_assoc]

/-- C1: for every catalog state, input text, and previous category (when
provided, non-empty — the engine only ever supplies a non-empty one),
`find_match` returns the first non-consumed entry in `entries` order
satisfying the full-form rule or the short-form rule, and `none` exactly
when no such entry exists.  Determinism is immediate: `find_match` is a
pure function of the catalog state and the inputs. -/
theorem find_match_first_match_spec (norm : String → String)
    (al : AnswerList) (text : String) (prev : Option String)
    (h : prev ≠ some "") : findMatchClaimProp norm al text prev := by
  constructor
  · intro d hd
    unfold AnswerList.find_match at hd
    obtain ⟨i, hi, hpd, hfirst⟩ := find?_first_position _ _ _ hd
    have hd' := (find_match_pred_iff norm al text prev h d).mp hpd
    refine ⟨hd'.1, hd'.2, i, hi, ?_⟩
    intro j b hj hb hcontra
    have hfalse := hfirst j b hj hb
    rw [← find_match_pred_iff norm al text prev h b] at hcontra
    rw [hfalse] at hcontra
    exact absurd hcontra (by simp)
  · unfold AnswerList.find_match
    rw [List.find?_eq_none]
    constructor
    · intro hall d hmem hcontra
      rw [← find_match_pred_iff norm al text prev h d] at hcontra
      exact hall d hmem hcontra
    · intro hall d hmem hcontra
      rw [find_match_pred_iff norm al text prev h d] at hcontra
      exact hall d hmem hcontra

/-- Concrete catalog used to instantiate hypotheses of catalog theorems:
two entries "a-x" (full "ax", class "a", element "x") and "b-y". -/
def witCatalog : AnswerList :=
  { items := ["a-x", "b-y"]
    used := []
    matchMap := [("a-x", "ax"), ("b-y", "by")]
    classMap := [("a-x", "a"), ("b-y", "b")]
    elementMap := [("a-x", "x"), ("b-y", "y")]
    displayMap := [("a-x", (["A"], ["ax"])), ("b-y", (["B"], ["by"]))] }

/-- Witness for C1 at a concrete catalog, input and previous category. -/
theorem find_match_first_match_spec_witness :
    (some "a" : Option String) ≠ some "" ∧
      findMatchClaimProp (fun s => s) witCatalog "x" (some "a") :=
  ⟨by decide,
   find_match_first_match_spec (fun s => s) witCatalog "x" (some "a")
     (by decide)⟩

namespace GameController

/-- Resolving the current player index only ever rewrites `current_idx`. -/
theorem current_player_idx_fst (st : GameController) :
    ∃ c, st.current_player_idx.1 = { st with current_idx := c } := by
  unfold current_player_idx
  cases h : firstActiveAux st.players st.current_idx st.players.length 0 with
  | some idx => exact ⟨idx, by simp [h]⟩
  | none => exact ⟨st.current_idx, by simp [h]⟩

/-- `current_player` only ever rewrites `current_idx`. -/
theorem current_player_fst (st : GameController) :
    ∃ c, st.current_player.1 = { st with current_idx := c } := by
  unfold current_player
  obtain ⟨c, hc⟩ := current_player_idx_fst st
  cases h : st.current_player_idx with
  | mk st1 o =>
      have hst1 : st1 = { st with current_idx := c } := by
        rw [h] at hc
        exact hc
      cases o <;> exact ⟨c, by simp [h, hst1]⟩

/-- `_emit_current_player` only ever rewrites `current_idx`. -/
theorem emitCurrent_fst (st : GameController) :
    ∃ c, st.emitCurrent.1 = { st with current_idx := c } := by
  unfold emitCurrent
  obtain ⟨c, hc⟩ := current_player_fst st
  cases h : st.current_player with
  | mk st1 o =>
      have hst1 : st1 = { st with current_idx := c } := by
        rw [h] at hc
        exact hc
      exact ⟨c, by simp [h, hst1]⟩

/-- `stop_game` clears `is_running` and may rewrite `current_idx`; nothing
else changes. -/
theorem stop_game_fst (st : GameController) :
    ∃ c, st.stop_game.1 =
      { st with is_running := false, current_idx := c } := by
  unfold stop_game
  obtain ⟨c, hc⟩ := emitCurrent_fst { st with is_running := false }
  cases h : GameController.emitCurrent { st with is_running := false } with
  | mk st1 e =>
      have hst1 : st1 = { st with is_running := false, current_idx := c } := by
        rw [h] at hc
        exact hc
      exact ⟨c, by simp [h, hst1]⟩

/-- `_end_if_finished` at most clears `is_running` and rewrites
`current_idx`. -/
theorem end_if_finished_fst (st : GameController) :
    ∃ c b, st.end_if_finished.1.1 =
      { st with is_running := b, current_idx := c } := by
  unfold end_if_finished
  by_cases h1 : (!st.players.isEmpty && st.players.all (fun p => p.eliminated)) = true
  · obtain ⟨c, hc⟩ := stop_game_fst st
    cases h : st.stop_game with
    | mk st1 e =>
        have hst1 : st1 = { st with is_running := false, current_idx := c } := by
          rw [h] at hc
          exact hc
        exact ⟨c, false, by simp [h1, h, hst1]⟩
  · cases hal : st.answer_list with
    | none =>
        refine ⟨st.current_idx, st.is_running, ?_⟩
        rw [if_neg h1]
        conv_rhs => rw [← hal]
    | some al =>
        by_cases h2 : (al.remaining_count == 0) = true
        · obtain ⟨c, hc⟩ := stop_game_fst st
          cases h : st.stop_game with
          | mk st1 e =>
              have hst1 : st1 = { st with is_running := false, current_idx := c } := by
                rw [h] at hc
                exact hc
              exact ⟨c, false, by simp [h1, hal, h2, h, hst1]⟩
        · refine ⟨st.current_idx, st.is_running, ?_⟩
          rw [if_neg h1]
          simp only [Bool.not_eq_true] at h2
          simp only [h2, Bool.false_eq_true, if_false]
          conv_rhs => rw [← hal]

end GameController

namespace GameController

/-- Field preservation of the persisting reads and the stop path: these
helpers rewrite any state only at `current_idx` (and `stop_game` at
`is_running`), so every other field projects through. -/
@[simp] theorem current_player_idx_players (st : GameController) :
    st.current_player_idx.1.players = st.players := by
  obtain ⟨c, h⟩ := current_player_idx_fst st
  rw [h]

@[simp] theorem current_player_idx_answer_list (st : GameController) :
    st.current_player_idx.1.answer_list = st.answer_list := by
  obtain ⟨c, h⟩ := current_player_idx_fst st
  rw [h]

@[simp] theorem current_player_idx_is_running (st : GameController) :
    st.current_player_idx.1.is_running = st.is_running := by
  obtain ⟨c, h⟩ := current_player_idx_fst st
  rw [h]

@[simp] theorem current_player_idx_last_tick (st : GameController) :
    st.current_player_idx.1.last_tick = st.last_tick := by
  obtain ⟨c, h⟩ := current_player_idx_fst st
  rw [h]

@[simp] theorem current_player_idx_answered_order (st : GameController) :
    st.current_player_idx.1.answered_order = st.answered_order := by
  obtain ⟨c, h⟩ := current_player_idx_fst st
  rw [h]

@[simp] theorem current_player_idx_last_class (st : GameController) :
    st.current_player_idx.1.last_answered_class = st.last_answered_class := by
  obtain ⟨c, h⟩ := current_player_idx_fst st
  rw [h]

@[simp] theorem emitCurrent_players (st : GameController) :
    st.emitCurrent.1.players = st.players := by
  obtain ⟨c, h⟩ := emitCurrent_fst st
  rw [h]

@[simp] theorem emitCurrent_answer_list (st : GameController) :
    st.emitCurrent.1.answer_list = st.answer_list := by
  obtain ⟨c, h⟩ := emitCurrent_fst st
  rw [h]

@[simp] theorem emitCurrent_is_running (st : GameController) :
    st.emitCurrent.1.is_running = st.is_running := by
  obtain ⟨c, h⟩ := emitCurrent_fst st
  rw [h]

@[simp] theorem emitCurrent_last_tick (st : GameController) :
    st.emitCurrent.1.last_tick = st.last_tick := by
  obtain ⟨c, h⟩ := emitCurrent_fst st
  rw [h]

@[simp] theorem emitCurrent_answered_order (st : GameController) :
    st.emitCurrent.1.answered_order = st.answered_order := by
  obtain ⟨c, h⟩ := emitCurrent_fst st
  rw [h]

@[simp] theorem emitCurrent_last_class (st : GameController) :
    st.emitCurrent.1.last_answered_class = st.last_answered_class := by
  obtain ⟨c, h⟩ := emitCurrent_fst st
  rw [h]

@[simp] theorem stop_game_players (st : GameController) :
    st.stop_game.1.players = st.players := by
  obtain ⟨c, h⟩ := stop_game_fst st
  rw [h]

@[simp] theorem stop_game_answer_list (st : GameController) :
    st.stop_game.1.answer_list = st.answer_list := by
  obtain ⟨c, h⟩ := stop_game_fst st
  rw [h]

@[simp] theorem stop_game_is_running (st : GameController) :
    st.stop_game.1.is_running = false := by
  obtain ⟨c, h⟩ := stop_game_fst st
  rw [h]

@[simp] theorem stop_game_last_tick (st : GameController) :
    st.stop_game.1.last_tick = st.last_tick := by
  obtain ⟨c, h⟩ := stop_game_fst st
  rw [h]

@[simp] theorem stop_game_answered_order (st : GameController) :
    st.stop_game.1.answered_order = st.answered_order := by
  obtain ⟨c, h⟩ := stop_game_fst st
  rw [h]

@[simp] theorem stop_game_last_class (st : GameController) :
    st.stop_game.1.last_answered_class = st.last_answered_class := by
  obtain ⟨c, h⟩ := stop_game_fst st
  rw [h]

@[simp] theorem end_if_finished_players (st : GameController) :
    st.end_if_finished.1.1.players = st.players := by
  obtain ⟨c, b, h⟩ := end_if_finished_fst st
  rw [h]

@[simp] theorem end_if_finished_answer_list (st : GameController) :
    st.end_if_finished.1.1.answer_list = st.answer_list := by
  obtain ⟨c, b, h⟩ := end_if_finished_fst st
  rw [h]

@[simp] theorem end_if_finished_last_tick (st : GameController) :
    st.end_if_finished.1.1.last_tick = st.last_tick := by
  obtain ⟨c, b, h⟩ := end_if_finished_fst st
  rw [h]

@[simp] theorem end_if_finished_answered_order (st : GameController) :
    st.end_if_finished.1.1.answered_order = st.answered_order := by
  obtain ⟨c, b, h⟩ := end_if_finished_fst st
  rw [h]

@[simp] theorem end_if_finished_last_class (st : GameController) :
    st.end_if_finished.1.1.last_answered_class = st.last_answered_class := by
  obtain ⟨c, b, h⟩ := end_if_finished_fst st
  rw [h]

end GameController

namespace GameController

/-- `advanceResolve` either leaves the roster unchanged or resets exactly
one player's countdown to `base_seconds * 1000`; the monotonic reference is
untouched. -/
theorem advanceResolve_shape (st : GameController) (evs : List GEvent) :
    ((st.advanceResolve evs).1.players = st.players ∨
      ∃ j np, st.players[j]? = some np ∧
        (st.advanceResolve evs).1.players =
          st.players.set j { np with remaining_ms := np.base_seconds * 1000 }) ∧
    (st.advanceResolve evs).1.last_tick = st.last_tick := by
  unfold advanceResolve
  cases hcp : st.current_player_idx with
  | mk st3 oj =>
  have h3p : st3.players = st.players := by
    have h := current_player_idx_players st
    rw [hcp] at h
    exact h
  have h3t : st3.last_tick = st.last_tick := by
    have h := current_player_idx_last_tick st
    rw [hcp] at h
    exact h
  cases oj with
  | none => simp [h3p, h3t]
  | some j =>
      simp only
      cases hpj : st3.players[j]? with
      | none => simp [h3p, h3t]
      | some np =>
          refine ⟨Or.inr ⟨j, np, ?_, ?_⟩, ?_⟩
          · rw [← h3p]
            exact hpj
          · simp [h3p]
          · simp [h3t]

/-- `_advance_turn_after_event` either leaves the roster untouched or
resets exactly one player's countdown; the monotonic reference is
untouched. -/
theorem advance_turn_shape (st : GameController) (r : String) :
    ((st.advance_turn r).1.players = st.players ∨
      ∃ j np, st.players[j]? = some np ∧
        (st.advance_turn r).1.players =
          st.players.set j { np with remaining_ms := np.base_seconds * 1000 }) ∧
    (st.advance_turn r).1.last_tick = st.last_tick := by
  unfold advance_turn
  cases hef : st.end_if_finished with
  | mk p evs =>
  cases p with
  | mk st1 fin =>
  have h1p : st1.players = st.players := by
    have h := end_if_finished_players st
    rw [hef] at h
    exact h
  have h1t : st1.last_tick = st.last_tick := by
    have h := end_if_finished_last_tick st
    rw [hef] at h
    exact h
  cases fin with
  | true => exact ⟨Or.inl h1p, h1t⟩
  | false =>
      simp only [Bool.false_eq_true, if_false]
      by_cases hemp : st1.players.isEmpty = true
      · rw [if_pos hemp]
        exact ⟨Or.inl h1p, h1t⟩
      · rw [if_neg hemp]
        cases hfn : findNextAux st1.players st1.current_idx st1.players.length 1 with
        | none =>
            simp only
            obtain ⟨hps, hlt⟩ := advanceResolve_shape st1 evs
            rcases hps with h | ⟨j, np, hj, hset⟩
            · exact ⟨Or.inl (h.trans h1p), hlt.trans h1t⟩
            · refine ⟨Or.inr ⟨j, np, ?_, ?_⟩, hlt.trans h1t⟩
              · rw [← h1p]
                exact hj
              · rw [hset, h1p]
        | some cand =>
            simp only
            obtain ⟨hps, hlt⟩ :=
              advanceResolve_shape { st1 with current_idx := cand } evs
            rcases hps with h | ⟨j, np, hj, hset⟩
            · exact ⟨Or.inl (h.trans h1p), hlt.trans h1t⟩
            · refine ⟨Or.inr ⟨j, np, ?_, ?_⟩, hlt.trans h1t⟩
              · rw [← h1p]
                exact hj
              · refine hset.trans ?_
                show st1.players.set j
                    { np with remaining_ms := np.base_seconds * 1000 } =
                  st.players.set j
                    { np with remaining_ms := np.base_seconds * 1000 }
                rw [h1p]

end GameController

/-- Config/runtime sanity for countdown reasoning: every player has a
non-negative countdown and a non-negative configured time budget. -/
def playersTimeSafe (st : GameController) : Prop :=
  ∀ p ∈ st.players, 0 ≤ p.remaining_ms ∧ 0 ≤ p.base_seconds

namespace GameController

/-- `_advance_turn_after_event` never touches the monotonic reference. -/
@[simp] theorem advance_turn_last_tick (st : GameController) (r : String) :
    (st.advance_turn r).1.last_tick = st.last_tick :=
  (advance_turn_shape st r).2

/-- `_advance_turn_after_event` preserves countdown/budget sanity (a turn
reset writes `base_seconds * 1000`, which is non-negative since the budget
is). -/
theorem advance_turn_safe (st : GameController) (r : String)
    (hsafe : playersTimeSafe st) : playersTimeSafe (st.advance_turn r).1 := by
  intro q hq
  rcases (advance_turn_shape st r).1 with h | ⟨j, np, hj, hset⟩
  · rw [h] at hq
    exact hsafe q hq
  · rw [hset] at hq
    rcases List.mem_or_eq_of_mem_set hq with hm | hm
    · exact hsafe q hm
    · subst hm
      have hnp : np ∈ st.players := by
        obtain ⟨hl, hpe⟩ := List.getElem?_eq_some.mp hj
        rw [← hpe]
        exact List.getElem_mem hl
      obtain ⟨-, hb⟩ := hsafe np hnp
      refine ⟨?_, by simpa using hb⟩
      simp only
      positivity

/-- Per-index effect of `_advance_turn_after_event` on the roster: each slot
is unchanged or reset to a full countdown. -/
theorem advance_turn_getElem (st : GameController) (r : String) (k : Nat)
    (q : Player) (hq : (st.advance_turn r).1.players[k]? = some q) :
    st.players[k]? = some q ∨
      ∃ np, st.players[k]? = some np ∧
        q = { np with remaining_ms := np.base_seconds * 1000 } := by
  rcases (advance_turn_shape st r).1 with h | ⟨j, np, hj, hset⟩
  · rw [h] at hq
    exact Or.inl hq
  · rw [hset] at hq
    by_cases hjk : j = k
    · subst hjk
      rw [List.getElem?_set_self'] at hq
      rw [hj] at hq
      cases hq
      exact Or.inr ⟨np, hj, rfl⟩
    · rw [List.getElem?_set_ne hjk] at hq
      exact Or.inl hq

/-- The conclusion of the per-tick countdown lemma, shared by the step and
sequence forms of claim C2. -/
def tickStepProp (st : GameController) (now : Int) : Prop :=
  playersTimeSafe (st.tick now).1 ∧
  (∀ (k : Nat) (p q : Player), st.players[k]? = some p →
     (st.tick now).1.players[k]? = some q →
     q.remaining_ms ≤ p.remaining_ms ∨
       q.remaining_ms = q.base_seconds * 1000) ∧
  ((st.tick now).1.last_tick = some now ∨ (st.tick now).1 = st)

/-- One `tick` with a monotonic clock reading: countdown non-negativity and
budget non-negativity are preserved, every player's countdown either does
not increase or is a turn reset to `base_seconds * 1000`, and the stored
reference becomes `now` unless the tick was a no-op. -/
theorem tick_shape (st : GameController) (now : Int)
    (hmono : ∀ l, st.last_tick = some l → l ≤ now)
    (hsafe : playersTimeSafe st) : tickStepProp st now := by
  unfold tickStepProp tick
  cases hr : st.is_running with
  | false =>
      simp only [hr, Bool.not_false, if_true]
      refine ⟨hsafe, ?_, Or.inr trivial⟩
      intro k p q hp hq
      rw [hp] at hq
      cases hq
      exact Or.inl le_rfl
  | true =>
      simp only [hr, Bool.not_true, Bool.false_eq_true, if_false]
      cases hlt : st.last_tick with
      | none =>
          dsimp only
          refine ⟨?_, ?_, Or.inl rfl⟩
          · intro p hp
            exact hsafe p hp
          · intro k p q hp hq
            rw [hp] at hq
            cases hq
            exact Or.inl le_rfl
      | some last =>
          dsimp only
          have helap : 0 ≤ now - last := by
            have := hmono last hlt
            omega
          cases hcp : ({ st with is_running := true, last_tick := some now } :
              GameController).current_player_idx with
          | mk st2 oi =>
          have h2p : st2.players = st.players := by
            have h := current_player_idx_players
              { st with is_running := true, last_tick := some now }
            rw [hcp] at h
            exact h
          have h2t : st2.last_tick = some now := by
            have h := current_player_idx_last_tick
              { st with is_running := true, last_tick := some now }
            rw [hcp] at h
            exact h
          cases oi with
          | none =>
              refine ⟨?_, ?_, Or.inl ?_⟩
              · intro p hp
                simp only [emitCurrent_players, end_if_finished_players,
                  h2p] at hp
                exact hsafe p hp
              · intro k p q hp hq
                simp only [emitCurrent_players, end_if_finished_players,
                  h2p] at hq
                rw [hp] at hq
                cases hq
                exact Or.inl le_rfl
              · simp only [emitCurrent_last_tick, end_if_finished_last_tick]
                exact h2t
          | some i =>
              dsimp only
              cases hpi : st2.players[i]? with
              | none =>
                  dsimp only
                  refine ⟨?_, ?_, Or.inl h2t⟩
                  · intro p hp
                    rw [h2p] at hp
                    exact hsafe p hp
                  · intro k p q hp hq
                    rw [h2p, hp] at hq
                    cases hq
                    exact Or.inl le_rfl
              | some p =>
                  dsimp only
                  have hpmem : p ∈ st.players := by
                    rw [← h2p]
                    obtain ⟨hl, hpe⟩ := List.getElem?_eq_some.mp hpi
                    rw [← hpe]
                    exact List.getElem_mem hl
                  obtain ⟨hp0, hpb⟩ := hsafe p hpmem
                  by_cases hz :
                      (max 0 (p.remaining_ms - (now - last)) == 0) = true
                  · rw [if_pos hz]
                    dsimp only
                    refine ⟨?_, ?_, Or.inl ?_⟩
                    · intro q hq
                      simp only [emitCurrent_players] at hq
                      refine advance_turn_safe _ "timeout" ?_ q hq
                      intro w hw
                      dsimp only at hw
                      rw [List.set_set] at hw
                      rcases List.mem_or_eq_of_mem_set hw with hm | hm
                      · rw [h2p] at hm
                        exact hsafe w hm
                      · subst hm
                        exact ⟨by simp, hpb⟩
                    · intro k q q2 hq hq2
                      simp only [emitCurrent_players] at hq2
                      rcases advance_turn_getElem _ "timeout" k q2 hq2 with
                        h | ⟨np, hnp, hq2e⟩
                      · dsimp only at h
                        rw [List.set_set] at h
                        by_cases hki : i = k
                        · subst hki
                          rw [List.getElem?_set_self'] at h
                          rw [hpi] at h
                          cases h
                          rw [h2p] at hpi
                          rw [hpi] at hq
                          cases hq
                          refine Or.inl ?_
                          show max 0 (p.remaining_ms - (now - last)) ≤
                            p.remaining_ms
                          omega
                        · rw [List.getElem?_set_ne hki, h2p, hq] at h
                          cases h
                          exact Or.inl le_rfl
                      · subst hq2e
                        exact Or.inr rfl
                    · simp only [emitCurrent_last_tick,
                        advance_turn_last_tick]
                      exact h2t
                  · rw [if_neg hz]
                    dsimp only
                    refine ⟨?_, ?_, Or.inl ?_⟩
                    · intro q hq
                      simp only [emitCurrent_players] at hq
                      rcases List.mem_or_eq_of_mem_set hq with hm | hm
                      · rw [h2p] at hm
                        exact hsafe q hm
                      · subst hm
                        exact ⟨by simp, hpb⟩
                    · intro k q q2 hq hq2
                      simp only [emitCurrent_players] at hq2
                      by_cases hki : i = k
                      · subst hki
                        rw [List.getElem?_set_self'] at hq2
                        rw [hpi] at hq2
                        cases hq2
                        rw [h2p] at hpi
                        rw [hpi] at hq
                        cases hq
                        refine Or.inl ?_
                        show max 0 (p.remaining_ms - (now - last)) ≤
                          p.remaining_ms
                        omega
                      · rw [List.getElem?_set_ne hki, h2p, hq] at hq2
                        cases hq2
                        exact Or.inl le_rfl
                    · simp only [emitCurrent_last_tick]
                      exact h2t

end GameController

/-- Folding a sequence of tick calls (the recurring external timer). -/
def foldTicks (st : GameController) (ts : List Int) : GameController :=
  ts.foldl (fun s t => (GameController.tick s t).1) st

namespace GameController

/-- Countdown/budget sanity is preserved by any monotone sequence of tick
calls whose readings do not precede the stored reference. -/
theorem foldTicks_safe : ∀ (ts : List Int) (st : GameController),
    playersTimeSafe st →
    List.Pairwise (· ≤ ·) ts →
    (∀ l, st.last_tick = some l → ∀ t ∈ ts, l ≤ t) →
    playersTimeSafe (foldTicks st ts) := by
  intro ts
  induction ts with
  | nil =>
      intro st h _ _
      simpa [foldTicks] using h
  | cons t ts ih =>
      intro st hsafe hpw hlow
      obtain ⟨hhead, htail⟩ := List.pairwise_cons.mp hpw
      have hstep := tick_shape st t
        (fun l hl => hlow l hl t (by simp)) hsafe
      have hfold : foldTicks st (t :: ts) = foldTicks (st.tick t).1 ts := by
        simp [foldTicks]
      rw [hfold]
      refine ih (st.tick t).1 hstep.1 htail ?_
      intro l hl t2 ht2
      rcases hstep.2.2 with hlast | hid
      · rw [hlast] at hl
        cases hl
        exact hhead t2 ht2
      · rw [hid] at hl
        exact hlow l hl t2 (by simp [ht2])

end GameController

/-- C2: while the game is running, a tick driven by a monotonic clock never
increases any player's countdown except by the turn reset to
`baseSeconds * 1000`, the countdown never goes below zero, and
non-negativity is preserved along every monotone sequence of ticks
(`playersTimeSafe` asks every countdown to be `≥ 0`). -/
theorem tick_monotone_countdown_spec (st : GameController) (now : Int)
    (ts : List Int)
    (hmono : ∀ l, st.last_tick = some l → l ≤ now)
    (hsafe : playersTimeSafe st)
    (hpw : List.Pairwise (· ≤ ·) ts)
    (hlow : ∀ l, st.last_tick = some l → ∀ t ∈ ts, l ≤ t) :
    GameController.tickStepProp st now ∧ playersTimeSafe (foldTicks st ts) :=
  ⟨GameController.tick_shape st now hmono hsafe,
   GameController.foldTicks_safe ts st hsafe hpw hlow⟩

/-- Concrete running state used to instantiate controller theorems. -/
def witP1 : Player :=
  { id := "p1", name := "alice", base_seconds := 30, pass_limit := 1,
    wrong_answer_limit := 1, remaining_passes := 1,
    remaining_wrong_answers := 1, eliminated := false,
    correct_answers := [], wrong_answers := [], remaining_ms := 30000 }

/-- A second registered player. -/
def witP2 : Player :=
  { witP1 with id := "p2", name := "bob" }

/-- A running two-player game over the concrete catalog with the stored
monotonic reference at 0 ms. -/
def witTickState : GameController :=
  { players := [witP1, witP2], answer_list := some witCatalog,
    current_idx := 0, is_running := true, last_tick := some 0,
    answered_order := [], last_answered_class := none }

/-- Witness for C2 at a concrete running state and tick sequence. -/
theorem tick_monotone_countdown_spec_witness :
    playersTimeSafe witTickState ∧
      (GameController.tickStepProp witTickState 100 ∧
        playersTimeSafe (foldTicks witTickState [100, 250])) :=
  ⟨by
     unfold playersTimeSafe
     decide,
   tick_monotone_countdown_spec witTickState 100 [100, 250]
     (by
       intro l hl
       cases hl
       decide)
     (by
       unfold playersTimeSafe
       decide)
     (by decide)
     (by
       intro l hl t ht
       cases hl
       fin_cases ht <;> decide)⟩

/-- Every residue below `n` is hit by some offset `k < n` of the wrapping
scan `(c + k) % n`. -/
theorem exists_offset (n c m : Nat) (hn : 0 < n) (hm : m < n) :
    ∃ k, k < n ∧ (c + k) % n = m := by
  rcases le_or_lt (c % n) m with h | h
  · refine ⟨m - c % n, by omega, ?_⟩
    rw [Nat.add_mod]
    have hb : (m - c % n) % n = m - c % n := Nat.mod_eq_of_lt (by omega)
    rw [hb]
    have hs : c % n + (m - c % n) = m := by omega
    rw [hs, Nat.mod_eq_of_lt hm]
  · have hcn : c % n < n := Nat.mod_lt c hn
    refine ⟨m + n - c % n, by omega, ?_⟩
    rw [Nat.add_mod]
    have hb : (m + n - c % n) % n = m + n - c % n :=
      Nat.mod_eq_of_lt (by omega)
    rw [hb]
    have hs : c % n + (m + n - c % n) = m + n := by omega
    rw [hs, Nat.add_mod_right, Nat.mod_eq_of_lt hm]

namespace GameController

/-- A successful scan of `current_player`'s loop finds, within the fuel,
the first offset holding a non-eliminated player. -/
theorem firstActiveAux_some (ps : List Player) (c : Nat) :
    ∀ fuel i idx, firstActiveAux ps c fuel i = some idx →
      ∃ k, k < fuel ∧ idx = (c + i + k) % ps.length ∧
        (∃ p, ps[idx]? = some p ∧ p.eliminated = false) ∧
        ∀ j, j < k → ∀ q, ps[(c + i + j) % ps.length]? = some q →
          q.eliminated = true := by
  intro fuel
  induction fuel with
  | zero =>
      intro i idx h
      simp [firstActiveAux] at h
  | succ fuel ih =>
      intro i idx h
      unfold firstActiveAux at h
      dsimp only at h
      cases hp : ps[(c + i) % ps.length]? with
      | none =>
          rw [hp] at h
          dsimp only at h
          cases h
      | some p =>
          rw [hp] at h
          dsimp only at h
          by_cases he : p.eliminated = true
          · rw [if_pos he] at h
            obtain ⟨k, hk, hidx, hfound, hfirst⟩ := ih (i + 1) idx h
            refine ⟨k + 1, by omega, by rw [hidx]; ring_nf, hfound, ?_⟩
            intro j hj q hq
            cases j with
            | zero =>
                have : (c + i + 0) % ps.length = (c + i) % ps.length := by
                  ring_nf
                rw [this, hp] at hq
                cases hq
                exact he
            | succ j =>
                have : (c + i + (j + 1)) % ps.length =
                    (c + (i + 1) + j) % ps.length := by
                  ring_nf
                rw [this] at hq
                exact hfirst j (by omega) q hq
          · rw [if_neg he] at h
            cases h
            refine ⟨0, by omega, by ring_nf, ⟨p, ?_, ?_⟩, ?_⟩
            · have : (c + i + 0) % ps.length = (c + i) % ps.length := by
                ring_nf
              rw [← this] at hp
              exact hp
            · simpa using he
            · intro j hj q hq
              omega

/-- A failing scan of `current_player`'s loop means every probed slot held
an eliminated player. -/
theorem firstActiveAux_none (ps : List Player) (c : Nat) :
    ∀ fuel i, firstActiveAux ps c fuel i = none →
      ∀ k, k < fuel → ∀ q, ps[(c + i + k) % ps.length]? = some q →
        q.eliminated = true := by
  intro fuel
  induction fuel with
  | zero =>
      intro i h k hk q hq
      omega
  | succ fuel ih =>
      intro i h k hk q hq
      unfold firstActiveAux at h
      dsimp only at h
      cases hp : ps[(c + i) % ps.length]? with
      | none =>
          have hlen : ps.length = 0 := by
            by_contra hne
            have hpos : 0 < ps.length := Nat.pos_of_ne_zero hne
            have hlt : (c + i) % ps.length < ps.length :=
              Nat.mod_lt _ hpos
            obtain ⟨x, hx⟩ : ∃ x, ps[(c + i) % ps.length]? = some x :=
              ⟨ps[(c + i) % ps.length], List.getElem?_eq_getElem hlt⟩
            rw [hp] at hx
            cases hx
          have : ps = [] := List.length_eq_zero.mp hlen
          subst this
          simp at hq
      | some p =>
          rw [hp] at h
          dsimp only at h
          by_cases he : p.eliminated = true
          · rw [if_pos he] at h
            cases k with
            | zero =>
                have heq : (c + i + 0) % ps.length = (c + i) % ps.length := by
                  ring_nf
                rw [heq, hp] at hq
                cases hq
                exact he
            | succ k =>
                have heq : (c + i + (k + 1)) % ps.length =
                    (c + (i + 1) + k) % ps.length := by
                  ring_nf
                rw [heq] at hq
                exact ih (i + 1) h k (by omega) q hq
          · rw [if_neg he] at h
            cases h

end GameController

/-- What claim C5 asserts of `current_player`: none on an empty roster (with
no state change), none exactly when everyone is eliminated, otherwise the
first non-eliminated player scanning forward from `current_idx` with wrap,
whose index is persisted into `current_idx`. -/
def currentPlayerClaim (st : GameController) : Prop :=
  (st.players = [] → st.current_player = (st, none)) ∧
  (st.current_player.2 = none ↔ ∀ p ∈ st.players, p.eliminated = true) ∧
  (∀ p, st.current_player.2 = some p → p.eliminated = false ∧
    ∃ k, k < st.players.length ∧
      st.players[(st.current_idx + k) % st.players.length]? = some p ∧
      (∀ j, j < k → ∀ q,
        st.players[(st.current_idx + j) % st.players.length]? = some q →
        q.eliminated = true) ∧
      st.current_player.1 =
        { st with current_idx :=
            (st.current_idx + k) % st.players.length })

namespace GameController

/-- C5: `current_player` resolution — none on an empty roster, none iff all
players are eliminated, otherwise the first non-eliminated player at or
after `current_idx` (wrapping once), persisting the resolved index. -/
theorem current_player_resolution_spec (st : GameController) :
    currentPlayerClaim st := by
  unfold currentPlayerClaim current_player current_player_idx
  cases haux : firstActiveAux st.players st.current_idx
      st.players.length 0 with
  | none =>
      dsimp only
      refine ⟨fun _ => rfl, ?_, ?_⟩
      · constructor
        · intro _ p hp
          obtain ⟨m, hm, hmp⟩ := List.mem_iff_getElem.mp hp
          have hn : 0 < st.players.length := by omega
          obtain ⟨k, hk, hck⟩ :=
            exists_offset st.players.length st.current_idx m hn hm
          refine firstActiveAux_none st.players st.current_idx
            st.players.length 0 haux k hk p ?_
          have h0 : st.current_idx + 0 + k = st.current_idx + k := by ring
          rw [h0, hck, List.getElem?_eq_getElem hm, hmp]
        · intro _
          rfl
      · intro p hp
        exact Option.noConfusion hp
  | some idx =>
      dsimp only
      obtain ⟨k, hk, hidx, ⟨p0, hp0, hp0e⟩, hfirst⟩ :=
        firstActiveAux_some st.players st.current_idx
          st.players.length 0 idx haux
      have hzero : ∀ j, st.current_idx + 0 + j = st.current_idx + j := by
        intro j
        ring
      refine ⟨?_, ?_, ?_⟩
      · intro hempty
        rw [hempty] at haux
        simp [firstActiveAux] at haux
      · constructor
        · intro h2
          rw [hp0] at h2
          exact Option.noConfusion h2
        · intro hall
          have hmem : p0 ∈ st.players := by
            obtain ⟨hl, hpe⟩ := List.getElem?_eq_some.mp hp0
            rw [← hpe]
            exact List.getElem_mem hl
          rw [hall p0 hmem] at hp0e
          exact Bool.noConfusion hp0e
      · intro p hp
        rw [hp0] at hp
        cases hp
        refine ⟨hp0e, k, hk, ?_, ?_, ?_⟩
        · rw [← hzero k, ← hidx]
          exact hp0
        · intro j hj q hq
          refine hfirst j hj q ?_
          rw [hzero j]
          exact hq
        · rw [← hzero k, ← hidx]

end GameController

/-- Witness for C5 at a concrete roster state. -/
theorem current_player_resolution_spec_witness :
    currentPlayerClaim witTickState :=
  GameController.current_player_resolution_spec witTickState

namespace GameController

/-- C7: `add_player` fails — error notification, no state change — exactly
when the name is empty, longer than 60 characters, or a normalized
duplicate of a registered player's name; otherwise it appends exactly one
runtime-reset player built from the given configuration (resolving the
current player afterwards may persist `current_idx`).  The two branches
have disjoint outcomes, so failure occurs if and only if the condition
holds. -/
theorem add_player_validation_spec (norm : String → String)
    (st : GameController) (pid name : String) (bs pl wl : Int) :
    ((name = "" ∨ 60 < name.length ∨
        ∃ p ∈ st.players, norm p.name = norm name) →
      (st.add_player norm pid name bs pl wl).1 = st ∧
      ∃ msg, (st.add_player norm pid name bs pl wl).2 =
        [GEvent.note "error" msg]) ∧
    (¬(name = "" ∨ 60 < name.length ∨
        ∃ p ∈ st.players, norm p.name = norm name) →
      ∃ c, (st.add_player norm pid name bs pl wl).1 =
        { st with
          players := st.players ++
            [{ id := pid, name := name, base_seconds := bs,
               pass_limit := pl, wrong_answer_limit := wl,
               remaining_passes := pl, remaining_wrong_answers := wl,
               eliminated := false, correct_answers := [],
               wrong_answers := [], remaining_ms := 0 }]
          current_idx := c }) := by
  unfold add_player
  constructor
  · intro hbad
    by_cases h1 : (name == "" || decide (name.length > 60)) = true
    · rw [if_pos h1]
      exact ⟨rfl, _, rfl⟩
    · rw [if_neg h1]
      have h2 : (st.players.any fun p => norm p.name == norm name) = true := by
        rcases hbad with hb | hb | hb
        · exact absurd (by simp [hb]) h1
        · exact absurd (by simp [hb]) h1
        · obtain ⟨p, hp, he⟩ := hb
          rw [List.any_eq_true]
          exact ⟨p, hp, by simp [he]⟩
      rw [if_pos h2]
      exact ⟨rfl, _, rfl⟩
  · intro hgood
    push_neg at hgood
    obtain ⟨hn1, hn2, hn3⟩ := hgood
    have h1 : (name == "" || decide (name.length > 60)) = false := by
      simp [hn1, hn2]
    rw [Bool.eq_false_iff] at h1
    rw [if_neg h1]
    have h2 : (st.players.any fun p => norm p.name == norm name) = false := by
      rw [List.any_eq_false]
      intro p hp
      simp [hn3 p hp]
    rw [Bool.eq_false_iff] at h2
    rw [if_neg h2]
    dsimp only [Player.reset_runtime]
    cases hec : GameController.emitCurrent
        { st with players := st.players ++
          [{ id := pid, name := name, base_seconds := bs,
             pass_limit := pl, wrong_answer_limit := wl,
             remaining_passes := pl, remaining_wrong_answers := wl,
             eliminated := false, correct_answers := [],
             wrong_answers := [], remaining_ms := 0 }] } with
    | mk stE ec =>
        obtain ⟨c, hc⟩ := emitCurrent_fst
          { st with players := st.players ++
            [{ id := pid, name := name, base_seconds := bs,
               pass_limit := pl, wrong_answer_limit := wl,
               remaining_passes := pl, remaining_wrong_answers := wl,
               eliminated := false, correct_answers := [],
               wrong_answers := [], remaining_ms := 0 }] }
        rw [hec] at hc
        exact ⟨c, hc⟩

end GameController

/-- Witness for C7: adding a fresh, valid name to the concrete roster. -/
theorem add_player_validation_spec_witness :
    ¬(("carol" : String) = "" ∨ 60 < ("carol" : String).length ∨
        ∃ p ∈ witTickState.players, (fun s => s) p.name = (fun s => s) "carol") ∧
      ∃ c, (witTickState.add_player (fun s => s) "id9" "carol" 30 1 1).1 =
        { witTickState with
          players := witTickState.players ++
            [{ id := "id9", name := "carol", base_seconds := 30,
               pass_limit := 1, wrong_answer_limit := 1,
               remaining_passes := 1, remaining_wrong_answers := 1,
               eliminated := false, correct_answers := [],
               wrong_answers := [], remaining_ms := 0 }]
          current_idx := c } :=
  ⟨by decide,
   (GameController.add_player_validation_spec (fun s => s) witTickState
      "id9" "carol" 30 1 1).2 (by decide)⟩

namespace GameController

/-- A resolved current-player index always holds a non-eliminated player. -/
theorem current_player_idx_some_not_elim (st : GameController) (i : Nat)
    (h : st.current_player_idx.2 = some i) :
    ∃ p, st.players[i]? = some p ∧ p.eliminated = false := by
  unfold current_player_idx at h
  cases haux : firstActiveAux st.players st.current_idx
      st.players.length 0 with
  | none =>
      rw [haux] at h
      exact Option.noConfusion h
  | some idx =>
      rw [haux] at h
      dsimp only at h
      obtain ⟨k, hk, hidx, hfound, hfirst⟩ :=
        firstActiveAux_some st.players st.current_idx
          st.players.length 0 idx haux
      cases h
      exact hfound

/-- When the stored index already holds a non-eliminated player, resolution
is the identity. -/
theorem current_player_idx_self (st : GameController) (q : Player)
    (h : st.players[st.current_idx]? = some q) (he : q.eliminated = false) :
    st.current_player_idx = (st, some st.current_idx) := by
  have hlen : st.current_idx < st.players.length :=
    (List.getElem?_eq_some.mp h).1
  have key : firstActiveAux st.players st.current_idx
      st.players.length 0 = some st.current_idx := by
    cases hfl : st.players.length with
    | zero => omega
    | succ m =>
        unfold firstActiveAux
        dsimp only
        have hc : (st.current_idx + 0) % st.players.length =
            st.current_idx := by
          rw [Nat.add_zero, Nat.mod_eq_of_lt hlen]
        rw [hc, h]
        dsimp only
        rw [he]
        simp
  unfold current_player_idx
  rw [key]

end GameController

/-- The wrong-answer class inference as a state update: keep the old value
when no known class prefixes the normalized text
(game_controller.py lines 237-245). -/
def inferOrKeep (al : AnswerList) (t : String) (old : Option String) :
    Option String :=
  match GameController.inferWrongClass al t with
  | some cv => some cv
  | none => old

/-- `inferUpdate` only rewrites the remembered class through `inferOrKeep`. -/
theorem inferUpdate_eq (al : AnswerList) (t : String) (st : GameController) :
    GameController.inferUpdate al t st =
      { st with last_answered_class :=
          inferOrKeep al t st.last_answered_class } := by
  unfold GameController.inferUpdate inferOrKeep
  cases GameController.inferWrongClass al t <;> rfl

namespace GameController

/-- The state produced by the keep-playing wrong branch is the re-resolved
input state. -/
theorem submitWrongKeep_fst (st : GameController) (p2 : Player)
    (text : String) : (submitWrongKeep st p2 text).1 = st.emitCurrent.1 := by
  unfold submitWrongKeep
  cases st.emitCurrent with
  | mk a b => rfl

/-- The state produced by the wrong-limit branch is turn advancement with
reason "wrong_limit" followed by the trailing current-player emit. -/
theorem submitWrongLimit_fst (st : GameController) (p2 : Player)
    (text : String) : (submitWrongLimit st p2 text).1 =
      (st.advance_turn "wrong_limit").1.emitCurrent.1 := by
  unfold submitWrongLimit
  cases hadv : st.advance_turn "wrong_limit" with
  | mk a b =>
      cases hec : a.emitCurrent with
      | mk c d =>
          dsimp only
          rw [hec]

/-- The state produced by the correct branch is turn advancement with
reason "correct" followed by the trailing current-player emit. -/
theorem submitCorrectFinish_fst (st : GameController) (p : Player)
    (text : String) (evs : List GEvent) :
    (submitCorrectFinish st p text evs).1 =
      (st.advance_turn "correct").1.emitCurrent.1 := by
  unfold submitCorrectFinish
  cases hadv : st.advance_turn "correct" with
  | mk a b =>
      cases hec : a.emitCurrent with
      | mk c d =>
          dsimp only
          rw [hec]

/-- When the stored index already holds a non-eliminated player,
`_emit_current_player` leaves the state unchanged. -/
theorem emitCurrent_fst_keep (st : GameController)
    (h : ∃ q, st.players[st.current_idx]? = some q ∧ q.eliminated = false) :
    st.emitCurrent.1 = st := by
  obtain ⟨q, hq, he⟩ := h
  unfold emitCurrent current_player
  rw [current_player_idx_self st q hq he]

end GameController

/-- A pair of one-wrong-answer players for the limit-1 scenario. -/
def witC3P (nm : String) : Player :=
  { id := nm, name := nm, base_seconds := 30, pass_limit := 0,
    wrong_answer_limit := 1, remaining_passes := 0,
    remaining_wrong_answers := 1, eliminated := false,
    correct_answers := [], wrong_answers := [], remaining_ms := 30000 }

/-- Running two-player game with wrongAnswerLimit 1 for the C3 scenario. -/
def witC3State : GameController :=
  { players := [witC3P "p1", witC3P "p2"], answer_list := some witCatalog,
    current_idx := 0, is_running := true, last_tick := some 0,
    answered_order := [], last_answered_class := none }

namespace GameController

/-- C3: adjudication of an incorrect submission.  `consume_wrong_answer`
decrements a positive budget and reports true, else reports false without
mutation.  In `host_submit_answer`, an incorrect answer by the active
player at index `i` with budget left decrements that player's budget and
does not advance the turn; with exhausted budget it eliminates the player
(budget unchanged) and advances the turn with reason "wrong_limit".  With
wrongAnswerLimit 1, the first wrong answer leaves the player at budget 0
and in the game, the second eliminates it and passes the turn on. -/
theorem wrong_answer_adjudication_spec (norm : String → String)
    (st : GameController) (text : String) (i : Nat) (p : Player)
    (al : AnswerList)
    (hcp : st.current_player_idx = ({ st with current_idx := i }, some i))
    (hp : st.players[i]? = some p)
    (hal : st.answer_list = some al)
    (hnm : al.find_match norm (extract_answer_text text)
      st.last_answered_class = none) :
    (∀ q : Player,
      (0 < q.remaining_wrong_answers →
        q.consume_wrong_answer =
          ({ q with remaining_wrong_answers :=
              q.remaining_wrong_answers - 1 }, true)) ∧
      (¬0 < q.remaining_wrong_answers →
        q.consume_wrong_answer = (q, false))) ∧
    (0 < p.remaining_wrong_answers →
      (st.host_submit_answer norm text).1.players = st.players.set i
        { p with
          wrong_answers := p.wrong_answers ++ [norm text]
          remaining_wrong_answers := p.remaining_wrong_answers - 1 } ∧
      (st.host_submit_answer norm text).1.current_idx = i ∧
      (st.host_submit_answer norm text).1.is_running = st.is_running ∧
      (st.host_submit_answer norm text).1.answer_list = st.answer_list) ∧
    (¬0 < p.remaining_wrong_answers →
      (∃ stE : GameController,
        (st.host_submit_answer norm text).1 =
          (stE.advance_turn "wrong_limit").1.emitCurrent.1 ∧
        stE.players = st.players.set i
          { p with
            wrong_answers := p.wrong_answers ++ [norm text]
            eliminated := true } ∧
        stE.current_idx = i ∧
        stE.is_running = st.is_running ∧
        stE.answer_list = st.answer_list ∧
        stE.last_answered_class =
          inferOrKeep al (norm (extract_answer_text text))
            st.last_answered_class) ∧
      (∀ q, (st.host_submit_answer norm text).1.players[i]? = some q →
         q.eliminated = true ∧
         q.remaining_wrong_answers = p.remaining_wrong_answers)) ∧
    ((((witC3State.host_submit_answer (fun s => s) "zzz").1.players[0]?).map
        Player.remaining_wrong_answers = some 0 ∧
      (((witC3State.host_submit_answer (fun s => s) "zzz").1.players[0]?).map
        Player.eliminated) = some false ∧
      (witC3State.host_submit_answer (fun s => s) "zzz").1.current_idx = 0) ∧
      ((((witC3State.host_submit_answer (fun s => s) "zzz").1.host_submit_answer
          (fun s => s) "zzz").1.players[0]?).map Player.eliminated =
        some true ∧
      ((witC3State.host_submit_answer (fun s => s) "zzz").1.host_submit_answer
          (fun s => s) "zzz").1.current_player_idx.2 = some 1)) := by
  have hel : p.eliminated = false := by
    obtain ⟨pa, hpa, hpae⟩ := current_player_idx_some_not_elim st i
      (by rw [hcp])
    rw [hp] at hpa
    cases hpa
    exact hpae
  refine ⟨?_, ?_, ?_, ?_⟩
  · intro q
    constructor
    · intro h
      unfold Player.consume_wrong_answer
      rw [if_pos h]
    · intro h
      unfold Player.consume_wrong_answer
      rw [if_neg h]
  · intro hgt
    unfold host_submit_answer
    rw [hcp]
    dsimp only
    rw [hal]
    dsimp only
    rw [hp]
    dsimp only
    rw [hnm]
    simp only [Option.isSome_none, Player.record_answer, Bool.false_eq_true,
      if_false, Player.consume_wrong_answer]
    rw [inferUpdate_eq]
    rw [if_pos hgt]
    simp only [eq_self_iff_true, if_true]
    refine ⟨?_, ?_, ?_, ?_⟩
    · rw [submitWrongKeep_fst]
      simp only [emitCurrent_players]
      rw [List.set_set]
    · rw [submitWrongKeep_fst, emitCurrent_fst_keep]
      refine ⟨{ p with
          wrong_answers := p.wrong_answers ++ [norm text]
          remaining_wrong_answers := p.remaining_wrong_answers - 1 },
        ?_, hel⟩
      rw [List.set_set, List.getElem?_set_self', hp]
      rfl
    · rw [submitWrongKeep_fst, emitCurrent_fst_keep]
      refine ⟨{ p with
          wrong_answers := p.wrong_answers ++ [norm text]
          remaining_wrong_answers := p.remaining_wrong_answers - 1 },
        ?_, hel⟩
      rw [List.set_set, List.getElem?_set_self', hp]
      rfl
    · rw [submitWrongKeep_fst, emitCurrent_fst_keep]
      · refine ⟨{ p with
          wrong_answers := p.wrong_answers ++ [norm text]
          remaining_wrong_answers := p.remaining_wrong_answers - 1 },
          ?_, hel⟩
        dsimp only
        rw [List.set_set, List.getElem?_set_self', hp]
        rfl
  · intro hgt
    unfold host_submit_answer
    rw [hcp]
    dsimp only
    rw [hal]
    dsimp only
    rw [hp]
    dsimp only
    rw [hnm]
    simp only [Option.isSome_none, Player.record_answer, Bool.false_eq_true,
      if_false, Player.consume_wrong_answer]
    rw [inferUpdate_eq]
    rw [if_neg hgt]
    simp only [Bool.false_eq_true, if_false]
    constructor
    · refine ⟨_, submitWrongLimit_fst _ _ _, ?_, ?_, ?_, ?_, ?_⟩
      · dsimp only
        rw [List.set_set]
      · rfl
      · rfl
      · dsimp only
      · rfl
    · intro q hq
      rw [submitWrongLimit_fst] at hq
      simp only [emitCurrent_players] at hq
      rcases advance_turn_getElem _ "wrong_limit" i q hq with
        h | ⟨np, hnp, hqe⟩
      · dsimp only at h
        rw [List.set_set, List.getElem?_set_self', hp] at h
        cases h
        exact ⟨rfl, rfl⟩
      · dsimp only at hnp
        rw [List.set_set, List.getElem?_set_self', hp] at hnp
        cases hnp
        subst hqe
        exact ⟨rfl, rfl⟩
  · exact ⟨by decide, by decide⟩

end GameController

namespace GameController

/-- Witness for C3: the first wrong answer of the limit-1 scenario leaves
the turn with player index 0. -/
theorem wrong_answer_adjudication_spec_witness :
    (witC3State.host_submit_answer (fun s => s) "zzz").1.current_idx = 0 :=
  ((wrong_answer_adjudication_spec (fun s => s) witC3State "zzz" 0
      (witC3P "p1") witCatalog (by decide) (by decide) rfl
      (by decide)).2.1 (by decide)).2.1

end GameController

namespace GameController

/-- `emitRosterUpdate` only re-resolves the current player. -/
theorem emitRosterUpdate_fst (st : GameController) (evs : List GEvent) :
    (emitRosterUpdate st evs).1 = st.emitCurrent.1 := by
  unfold emitRosterUpdate
  cases st.emitCurrent with
  | mk a b => rfl

/-- The pick loop either aborts or completes with the empty pick: the
accumulator can never grow, because appending is preceded by the raising
membership test. -/
theorem reorderPick_result (nameMap : List (String × Player))
    (norm : String → String) (names : List String) :
    reorderPick nameMap norm names = some [] ∨
    reorderPick nameMap norm names = none := by
  unfold reorderPick
  have haux : ∀ (ns : List String) (acc : Option (List Player)),
      ns.foldl (fun (acc : Option (List Player)) n =>
        match acc with
        | none => none
        | some picked =>
            match dictGet nameMap (norm n) with
            | some _ => none
            | none => some picked) acc = acc ∨
      ns.foldl (fun (acc : Option (List Player)) n =>
        match acc with
        | none => none
        | some picked =>
            match dictGet nameMap (norm n) with
            | some _ => none
            | none => some picked) acc = none := by
    intro ns
    induction ns with
    | nil => exact fun acc => Or.inl rfl
    | cons n t ih =>
        intro acc
        simp only [List.foldl_cons]
        cases acc with
        | none =>
            rcases ih none with h | h
            · exact Or.inr h
            · exact Or.inr h
        | some picked =>
            dsimp only
            cases hd : dictGet nameMap (norm n) with
            | some p =>
                rcases ih none with h | h
                · exact Or.inr h
                · exact Or.inr h
            | none => exact ih (some picked)
  exact haux names (some [])

/-- C9 amendment support: `move_player` preserves roster membership and
leaves `is_running` and the catalog unchanged; it performs no check of
`is_running`. -/
theorem move_player_shape (norm : String → String) (st : GameController)
    (name : String) (target_index : Int) :
    (∀ q, q ∈ (st.move_player norm name target_index).1.players ↔
        q ∈ st.players) ∧
    (st.move_player norm name target_index).1.is_running = st.is_running ∧
    (st.move_player norm name target_index).1.answer_list =
      st.answer_list := by
  unfold move_player
  cases hf : st.players.findIdx? (fun p => norm p.name == norm name) with
  | none =>
      exact ⟨fun q => Iff.rfl, rfl, rfl⟩
  | some orig_idx =>
      dsimp only
      generalize (if (max 0 (min target_index
          (st.players.length : Int))).toNat > orig_idx then
          (max 0 (min target_index (st.players.length : Int))).toNat - 1
        else (max 0 (min target_index
          (st.players.length : Int))).toNat) = insPos
      split
      · exact ⟨fun q => Iff.rfl, rfl, rfl⟩
      · cases hp : st.players[orig_idx]? with
        | none => exact ⟨fun q => Iff.rfl, rfl, rfl⟩
        | some p =>
            dsimp only
            have horig : orig_idx < st.players.length :=
              (List.getElem?_eq_some.mp hp).1
            refine ⟨?_, ?_, ?_⟩
            · intro q
              rw [emitRosterUpdate_fst]
              simp only [emitCurrent_players]
              rw [List.mem_insertIdx (Nat.min_le_right _ _)]
              have hdecomp : st.players = st.players.take orig_idx ++
                  st.players[orig_idx] :: st.players.drop (orig_idx + 1) := by
                rw [List.getElem_cons_drop, List.take_append_drop]
              have hpe : st.players[orig_idx] = p := by
                have h2 := List.getElem?_eq_getElem horig
                rw [hp] at h2
                exact (Option.some.inj h2).symm
              rw [List.eraseIdx_eq_take_drop_succ]
              constructor
              · intro hq
                rcases hq with hq | hq
                · subst hq
                  rw [hdecomp, hpe]
                  simp
                · rw [hdecomp]
                  rcases List.mem_append.mp hq with hm | hm
                  · exact List.mem_append.mpr (Or.inl hm)
                  · exact List.mem_append.mpr
                      (Or.inr (List.mem_cons_of_mem _ hm))
              · intro hq
                rw [hdecomp] at hq
                rcases List.mem_append.mp hq with hm | hm
                · exact Or.inr (List.mem_append.mpr (Or.inl hm))
                · rcases List.mem_cons.mp hm with hm | hm
                  · rw [hpe] at hm
                    exact Or.inl hm
                  · exact Or.inr (List.mem_append.mpr (Or.inr hm))
            · rw [emitRosterUpdate_fst]
              simp
            · rw [emitRosterUpdate_fst]
              simp

end GameController

namespace GameController

/-- C9 (amended): neither roster-mutation endpoint checks `is_running`.
`reorder_players_by_name` in fact never changes the roster: `Player` is
unhashable, so past the empty-input guard every call raises `TypeError`
(modelled `none`) before the roster assignment, and the only normal
returns — empty request or empty roster — leave the roster untouched.
`move_player` does mutate the rotation order even while a game runs
(see the counterexample), preserving roster membership and leaving
`is_running` and the loaded catalog unchanged.  The "only while not
running" restriction lives, if anywhere, in the excluded UI layer. -/
theorem reorder_move_roster_mutation_spec (norm : String → String)
    (st : GameController) (names : List String) (name : String)
    (ti : Int) :
    (names ≠ [] → st.players ≠ [] →
      st.reorder_players_by_name norm names = none) ∧
    (∀ res, st.reorder_players_by_name norm names = some res →
      res.1.players = st.players) ∧
    (∀ q, q ∈ (st.move_player norm name ti).1.players ↔ q ∈ st.players) ∧
    (st.move_player norm name ti).1.is_running = st.is_running ∧
    (st.move_player norm name ti).1.answer_list = st.answer_list := by
  refine ⟨?_, ?_, (move_player_shape norm st name ti).1,
    (move_player_shape norm st name ti).2.1,
    (move_player_shape norm st name ti).2.2⟩
  · intro hn hp
    unfold reorder_players_by_name
    have hcond : (names.isEmpty || st.players.isEmpty) = false := by
      cases names with
      | nil => exact absurd rfl hn
      | cons a t =>
          cases hps : st.players with
          | nil => exact absurd hps hp
          | cons b u => rfl
    rw [hcond]
    simp only [Bool.false_eq_true, if_false]
    cases hpk : reorderPick
        ((st.players.map (fun p => (norm p.name, p))).reverse) norm names with
    | none => rfl
    | some picked => rfl
  · intro res hres
    unfold reorder_players_by_name at hres
    by_cases hcond : (names.isEmpty || st.players.isEmpty) = true
    · rw [if_pos hcond] at hres
      have he : (st, ([] : List GEvent)) = res := Option.some.inj hres
      rw [← he]
    · rw [if_neg hcond] at hres
      cases hpk : reorderPick
          ((st.players.map (fun p => (norm p.name, p))).reverse)
          norm names with
      | none =>
          rw [hpk] at hres
          cases hres
      | some picked =>
          rw [hpk] at hres
          cases hres

/-- Counterexample to C9 as stated: with `is_running = true`, a move
request still permutes the roster (`move_player` has no `is_running`
guard and, unlike `reorder_players_by_name`, no raising set
membership). -/
theorem move_while_running_counterexample :
    witTickState.is_running = true ∧
    (witTickState.move_player (fun s => s) "bob" 0).1.players ≠
      witTickState.players :=
  ⟨rfl, by decide⟩

/-- Witness for the amended C9 at a concrete running state: the reorder
request aborts with no new state, and a move keeps the catalog while the
game runs. -/
theorem reorder_move_roster_mutation_spec_witness :
    witTickState.reorder_players_by_name (fun s => s)
        ["bob", "alice"] = none ∧
    (witTickState.move_player (fun s => s) "bob" 0).1.is_running =
      witTickState.is_running :=
  ⟨(reorder_move_roster_mutation_spec (fun s => s) witTickState
      ["bob", "alice"] "bob" 0).1 (by decide) (by decide),
   (reorder_move_roster_mutation_spec (fun s => s) witTickState
      ["bob", "alice"] "bob" 0).2.2.2.1⟩

end GameController

namespace GameController

/-- `advanceResolve` never touches the catalog, the chronology or the
remembered class. -/
theorem advanceResolve_misc (st : GameController) (evs : List GEvent) :
    (st.advanceResolve evs).1.answer_list = st.answer_list ∧
    (st.advanceResolve evs).1.answered_order = st.answered_order ∧
    (st.advanceResolve evs).1.last_answered_class =
      st.last_answered_class := by
  unfold advanceResolve
  cases hcp : st.current_player_idx with
  | mk st3 oj =>
  have h3a : st3.answer_list = st.answer_list := by
    have h := current_player_idx_answer_list st
    rw [hcp] at h
    exact h
  have h3o : st3.answered_order = st.answered_order := by
    have h := current_player_idx_answered_order st
    rw [hcp] at h
    exact h
  have h3c : st3.last_answered_class = st.last_answered_class := by
    have h := current_player_idx_last_class st
    rw [hcp] at h
    exact h
  cases oj with
  | none => simp [h3a, h3o, h3c]
  | some j =>
      simp only
      cases hpj : st3.players[j]? with
      | none => simp [h3a, h3o, h3c]
      | some np => simp [h3a, h3o, h3c]

/-- `_advance_turn_after_event` never touches the catalog, the chronology
or the remembered class. -/
theorem advance_turn_misc (st : GameController) (r : String) :
    (st.advance_turn r).1.answer_list = st.answer_list ∧
    (st.advance_turn r).1.answered_order = st.answered_order ∧
    (st.advance_turn r).1.last_answered_class =
      st.last_answered_class := by
  unfold advance_turn
  cases hef : st.end_if_finished with
  | mk pr evs =>
  cases pr with
  | mk st1 fin =>
  have h1a : st1.answer_list = st.answer_list := by
    have h := end_if_finished_answer_list st
    rw [hef] at h
    exact h
  have h1o : st1.answered_order = st.answered_order := by
    have h := end_if_finished_answered_order st
    rw [hef] at h
    exact h
  have h1c : st1.last_answered_class = st.last_answered_class := by
    have h := end_if_finished_last_class st
    rw [hef] at h
    exact h
  cases fin with
  | true => exact ⟨h1a, h1o, h1c⟩
  | false =>
      simp only [Bool.false_eq_true, if_false]
      by_cases hemp : st1.players.isEmpty = true
      · rw [if_pos hemp]
        exact ⟨h1a, h1o, h1c⟩
      · rw [if_neg hemp]
        cases hfn :
            findNextAux st1.players st1.current_idx st1.players.length 1 with
        | none =>
            simp only
            obtain ⟨ha, ho, hc⟩ := advanceResolve_misc st1 evs
            exact ⟨ha.trans h1a, ho.trans h1o, hc.trans h1c⟩
        | some cand =>
            simp only
            obtain ⟨ha, ho, hc⟩ :=
              advanceResolve_misc { st1 with current_idx := cand } evs
            exact ⟨ha.trans h1a, ho.trans h1o, hc.trans h1c⟩

@[simp] theorem advance_turn_keeps_answer_list (st : GameController)
    (r : String) : (st.advance_turn r).1.answer_list = st.answer_list :=
  (advance_turn_misc st r).1

@[simp] theorem advance_turn_keeps_answered_order (st : GameController)
    (r : String) : (st.advance_turn r).1.answered_order =
      st.answered_order :=
  (advance_turn_misc st r).2.1

@[simp] theorem advance_turn_keeps_last_class (st : GameController)
    (r : String) : (st.advance_turn r).1.last_answered_class =
      st.last_answered_class :=
  (advance_turn_misc st r).2.2

/-- `classFromKey` rewrites at most `last_answered_class`. -/
theorem classFromKey_shape (al : AnswerList) (d : String)
    (st : GameController) :
    ∃ lc, classFromKey al d st = { st with last_answered_class := lc } := by
  unfold classFromKey
  cases dictGet al.classMap d with
  | none => exact ⟨st.last_answered_class, rfl⟩
  | some ck =>
      dsimp only
      by_cases h : (ck == "") = true
      · rw [if_pos h]
        exact ⟨st.last_answered_class, rfl⟩
      · rw [if_neg h]
        exact ⟨some ck, rfl⟩

@[simp] theorem classFromKey_players (al : AnswerList) (d : String)
    (st : GameController) : (classFromKey al d st).players = st.players := by
  obtain ⟨lc, h⟩ := classFromKey_shape al d st
  rw [h]

@[simp] theorem classFromKey_answer_list (al : AnswerList) (d : String)
    (st : GameController) :
    (classFromKey al d st).answer_list = st.answer_list := by
  obtain ⟨lc, h⟩ := classFromKey_shape al d st
  rw [h]

@[simp] theorem classFromKey_answered_order (al : AnswerList) (d : String)
    (st : GameController) :
    (classFromKey al d st).answered_order = st.answered_order := by
  obtain ⟨lc, h⟩ := classFromKey_shape al d st
  rw [h]

@[simp] theorem classFromKey_current_idx (al : AnswerList) (d : String)
    (st : GameController) :
    (classFromKey al d st).current_idx = st.current_idx := by
  obtain ⟨lc, h⟩ := classFromKey_shape al d st
  rw [h]

/-- `classFromChron` rewrites at most `last_answered_class`. -/
theorem classFromChron_shape (al : AnswerList) (st : GameController) :
    ∃ lc, classFromChron al st =
      { st with last_answered_class := lc } := by
  unfold classFromChron
  cases st.answered_order.getLast? with
  | none => exact ⟨st.last_answered_class, rfl⟩
  | some u => exact classFromKey_shape al u st

@[simp] theorem classFromChron_players (al : AnswerList)
    (st : GameController) : (classFromChron al st).players = st.players := by
  obtain ⟨lc, h⟩ := classFromChron_shape al st
  rw [h]

@[simp] theorem classFromChron_answer_list (al : AnswerList)
    (st : GameController) :
    (classFromChron al st).answer_list = st.answer_list := by
  obtain ⟨lc, h⟩ := classFromChron_shape al st
  rw [h]

@[simp] theorem classFromChron_answered_order (al : AnswerList)
    (st : GameController) :
    (classFromChron al st).answered_order = st.answered_order := by
  obtain ⟨lc, h⟩ := classFromChron_shape al st
  rw [h]

end GameController

namespace GameController

/-- Catalog/chronology effect of `host_submit_answer`: on every error or
incorrect path both are untouched; on an accepted answer the mark-used
catalog is installed and the matched display key is appended to the
chronology exactly when it is not already there. -/
theorem host_submit_effect (norm : String → String) (st : GameController)
    (text : String) :
    ((st.host_submit_answer norm text).1.answer_list = st.answer_list ∧
      (st.host_submit_answer norm text).1.answered_order =
        st.answered_order) ∨
    (∃ al matched,
      st.answer_list = some al ∧
      al.find_match norm (extract_answer_text text)
          st.last_answered_class = some matched ∧
      (st.host_submit_answer norm text).1.answer_list =
        some (al.mark_used norm (extract_answer_text text)
            st.last_answered_class).1 ∧
      (st.host_submit_answer norm text).1.answered_order =
        (if st.answered_order.contains matched then st.answered_order
          else st.answered_order ++ [matched])) := by
  unfold host_submit_answer
  cases hcp : st.current_player_idx with
  | mk st1 oi =>
  have h1a : st1.answer_list = st.answer_list := by
    have h := current_player_idx_answer_list st
    rw [hcp] at h
    exact h
  have h1o : st1.answered_order = st.answered_order := by
    have h := current_player_idx_answered_order st
    rw [hcp] at h
    exact h
  have h1c : st1.last_answered_class = st.last_answered_class := by
    have h := current_player_idx_last_class st
    rw [hcp] at h
    exact h
  cases oi with
  | none => exact Or.inl ⟨h1a, h1o⟩
  | some i =>
      dsimp only
      cases hal1 : st1.answer_list with
      | none => exact Or.inl ⟨h1a, h1o⟩
      | some al =>
          cases hpi : st1.players[i]? with
          | none => exact Or.inl ⟨h1a, h1o⟩
          | some p =>
              dsimp only
              cases hm : al.find_match norm (extract_answer_text text)
                  st1.last_answered_class with
              | none =>
                  simp only [Option.isSome_none, Bool.false_eq_true, if_false]
                  rw [inferUpdate_eq]
                  cases hcw :
                      (p.record_answer norm text false).consume_wrong_answer with
                  | mk p2 ok =>
                  dsimp only
                  cases ok with
                  | true =>
                      simp only [eq_self_iff_true, if_true]
                      refine Or.inl ⟨?_, ?_⟩
                      · rw [submitWrongKeep_fst]
                        simp only [emitCurrent_answer_list]
                        rw [← hal1]
                        exact h1a
                      · rw [submitWrongKeep_fst]
                        simp only [emitCurrent_answered_order]
                        exact h1o
                  | false =>
                      simp only [Bool.false_eq_true, if_false]
                      refine Or.inl ⟨?_, ?_⟩
                      · rw [submitWrongLimit_fst]
                        simp only [emitCurrent_answer_list,
                          advance_turn_keeps_answer_list]
                        rw [← hal1]
                        exact h1a
                      · rw [submitWrongLimit_fst]
                        simp only [emitCurrent_answered_order,
                          advance_turn_keeps_answered_order]
                        exact h1o
              | some matched =>
                  have hmu : al.mark_used norm (extract_answer_text text)
                      st1.last_answered_class =
                      ({ al with used :=
                          if al.used.contains matched then al.used
                          else matched :: al.used }, some matched) := by
                    unfold AnswerList.mark_used
                    rw [hm]
                  simp only [Option.isSome_some, eq_self_iff_true, if_true]
                  rw [hmu]
                  dsimp only
                  simp only [classFromKey_answered_order]
                  by_cases hcon : st1.answered_order.contains matched = true
                  · rw [if_pos hcon]
                    refine Or.inr ⟨al, matched, ?_, ?_, ?_, ?_⟩
                    · rw [← h1a]
                      exact hal1
                    · rw [← h1c]
                      exact hm
                    · rw [submitCorrectFinish_fst]
                      simp only [emitCurrent_answer_list,
                        advance_turn_keeps_answer_list,
                        classFromChron_answer_list]
                      rw [← h1c, hmu]
                    · rw [submitCorrectFinish_fst]
                      simp only [emitCurrent_answered_order,
                        advance_turn_keeps_answered_order,
                        classFromChron_answered_order,
                        classFromKey_answered_order]
                      rw [← h1o]
                      rw [if_pos hcon]
                  · rw [if_neg hcon]
                    refine Or.inr ⟨al, matched, ?_, ?_, ?_, ?_⟩
                    · rw [← h1a]
                      exact hal1
                    · rw [← h1c]
                      exact hm
                    · rw [submitCorrectFinish_fst]
                      simp only [emitCurrent_answer_list,
                        advance_turn_keeps_answer_list,
                        classFromChron_answer_list]
                      rw [← h1c, hmu]
                    · rw [submitCorrectFinish_fst]
                      simp only [emitCurrent_answered_order,
                        advance_turn_keeps_answered_order,
                        classFromChron_answered_order,
                        classFromKey_answered_order]
                      rw [← h1o]
                      rw [if_neg hcon]

end GameController

/-- The C6 invariant at the catalog level: every consumed display key is a
catalog entry (`consumed ⊆ entries`). -/
def consumedSubset (al : AnswerList) : Prop :=
  ∀ d ∈ al.used, d ∈ al.items

/-- The C6 invariant at the controller level: whatever catalog is loaded
satisfies `consumed ⊆ entries`. -/
def catalogInv (st : GameController) : Prop :=
  ∀ al, st.answer_list = some al → consumedSubset al

/-- The empty catalog satisfies the invariant vacuously. -/
theorem consumedSubset_empty : consumedSubset AnswerList.empty := by
  intro d hd
  cases hd

/-- An unanswered row never touches `used` and only appends to `items`. -/
theorem consumedSubset_preStep (strip norm : String → String)
    (al : AnswerList) (row : List String) (h : consumedSubset al) :
    consumedSubset (AnswerList.preStep strip norm al row) := by
  unfold AnswerList.preStep
  by_cases h1 : ((rowDisplays strip row).isEmpty
      || (rowMatches strip row).isEmpty) = true
  · rw [if_pos h1]
    exact h
  · rw [if_neg h1]
    by_cases h2 :
        (norm (String.intercalate "-" (rowDisplays strip row)) == "") = true
    · rw [if_pos h2]
      exact h
    · rw [if_neg h2]
      intro d hd
      exact List.mem_append.mpr (Or.inl (h d hd))

/-- An answered row adds `nd` to `used` only after guaranteeing
`nd ∈ items` (either it was already there or it is appended). -/
theorem consumedSubset_postStep (strip norm : String → String)
    (al : AnswerList) (row : List String) (h : consumedSubset al) :
    consumedSubset (AnswerList.postStep strip norm al row) := by
  unfold AnswerList.postStep
  by_cases h1 : ((rowDisplays strip row).isEmpty
      || (rowMatches strip row).isEmpty) = true
  · rw [if_pos h1]
    exact h
  · rw [if_neg h1]
    by_cases h2 :
        (norm (String.intercalate "-" (rowDisplays strip row)) == "") = true
    · rw [if_pos h2]
      exact h
    · rw [if_neg h2]
      dsimp only
      by_cases h3 : al.items.contains
          (norm (String.intercalate "-" (rowDisplays strip row))) = true
      · rw [if_pos h3]
        have hnd : norm (String.intercalate "-" (rowDisplays strip row))
            ∈ al.items := by
          simpa using h3
        by_cases h4 : (dictGet al.displayMap
            (norm (String.intercalate "-" (rowDisplays strip row)))).isSome
            = true
        · rw [if_pos h4]
          intro d hd
          by_cases h5 : al.used.contains
              (norm (String.intercalate "-" (rowDisplays strip row))) = true
          · rw [if_pos h5] at hd
            exact h d hd
          · rw [if_neg h5] at hd
            rcases List.mem_cons.mp hd with rfl | hd
            · exact hnd
            · exact h d hd
        · rw [if_neg h4]
          intro d hd
          by_cases h5 : al.used.contains
              (norm (String.intercalate "-" (rowDisplays strip row))) = true
          · rw [if_pos h5] at hd
            exact h d hd
          · rw [if_neg h5] at hd
            rcases List.mem_cons.mp hd with rfl | hd
            · exact hnd
            · exact h d hd
      · rw [if_neg h3]
        by_cases h4 : (dictGet (AnswerList.displayMap { al with
            items := al.items ++
              [norm (String.intercalate "-" (rowDisplays strip row))]
            matchMap := dictPut al.matchMap
              (norm (String.intercalate "-" (rowDisplays strip row)))
              (norm (String.join (rowMatches strip row)))
            classMap := dictPut al.classMap
              (norm (String.intercalate "-" (rowDisplays strip row)))
              (norm ((rowMatches strip row).headD ""))
            elementMap := dictPut al.elementMap
              (norm (String.intercalate "-" (rowDisplays strip row)))
              (norm ((rowMatches strip row).getLastD "")) })
            (norm (String.intercalate "-" (rowDisplays strip row)))).isSome
            = true
        · rw [if_pos h4]
          intro d hd
          by_cases h5 : al.used.contains
              (norm (String.intercalate "-" (rowDisplays strip row))) = true
          · rw [if_pos h5] at hd
            exact List.mem_append.mpr (Or.inl (h d hd))
          · rw [if_neg h5] at hd
            rcases List.mem_cons.mp hd with rfl | hd
            · exact List.mem_append.mpr (Or.inr (List.mem_singleton.mpr rfl))
            · exact List.mem_append.mpr (Or.inl (h d hd))
        · rw [if_neg h4]
          intro d hd
          by_cases h5 : al.used.contains
              (norm (String.intercalate "-" (rowDisplays strip row))) = true
          · rw [if_pos h5] at hd
            exact List.mem_append.mpr (Or.inl (h d hd))
          · rw [if_neg h5] at hd
            rcases List.mem_cons.mp hd with rfl | hd
            · exact List.mem_append.mpr (Or.inr (List.mem_singleton.mpr rfl))
            · exact List.mem_append.mpr (Or.inl (h d hd))

/-- Loading any tabular input yields a catalog satisfying
`consumed ⊆ entries`. -/
theorem consumedSubset_load (strip norm : String → String)
    (rows : List (List String)) :
    consumedSubset (AnswerList.load_from_tabular_rows strip norm rows) := by
  unfold AnswerList.load_from_tabular_rows
  have hfold1 : ∀ (L : List (List String)) (al : AnswerList),
      consumedSubset al →
      consumedSubset (L.foldl (AnswerList.preStep strip norm) al) := by
    intro L
    induction L with
    | nil => exact fun al h => h
    | cons r t ih =>
        intro al h
        exact ih _ (consumedSubset_preStep strip norm al r h)
  have hfold2 : ∀ (L : List (List String)) (al : AnswerList),
      consumedSubset al →
      consumedSubset (L.foldl (AnswerList.postStep strip norm) al) := by
    intro L
    induction L with
    | nil => exact fun al h => h
    | cons r t ih =>
        intro al h
        exact ih _ (consumedSubset_postStep strip norm al r h)
  exact hfold2 _ _ (hfold1 _ _ consumedSubset_empty)

/-- `find_match` only reports members of `items`. -/
theorem find_match_mem (norm : String → String) (al : AnswerList)
    (text : String) (prev : Option String) (d : String)
    (h : al.find_match norm text prev = some d) : d ∈ al.items :=
  List.mem_of_find?_eq_some h

/-- `mark_used` preserves `consumed ⊆ entries`: the only key it can add to
`used` is the `find_match` result, which is an entry. -/
theorem consumedSubset_mark_used (norm : String → String) (al : AnswerList)
    (text : String) (prev : Option String) (h : consumedSubset al) :
    consumedSubset (al.mark_used norm text prev).1 := by
  unfold AnswerList.mark_used
  cases hm : al.find_match norm text prev with
  | none => exact h
  | some matched =>
      dsimp only
      intro d hd
      by_cases hc : al.used.contains matched = true
      · rw [if_pos hc] at hd
        exact h d hd
      · rw [if_neg hc] at hd
        rcases List.mem_cons.mp hd with rfl | hd
        · exact find_match_mem norm al text prev d hm
        · exact h d hd

/-- C6: the invariant `consumed ⊆ entries` holds for the catalog produced
by `load_from_tabular_rows`, `find_match` only reports entries and does not
mutate the catalog, `mark_used` preserves the invariant (it can only add
the `find_match` result to `used`), and at the engine level `load_rows`
establishes it while `host_submit_answer` and `unmark_answer` preserve it
(`remaining_count` and `save_to_tabular` are read-only and mutate
nothing). -/
theorem consumed_subset_invariant_spec (strip norm : String → String)
    (st : GameController) (rows : List (List String))
    (text key mtext : String) (prev : Option String) :
    consumedSubset (AnswerList.load_from_tabular_rows strip norm rows) ∧
    (∀ al : AnswerList, ∀ d, al.find_match norm mtext prev = some d →
       d ∈ al.items) ∧
    (∀ al : AnswerList, consumedSubset al →
       consumedSubset (al.mark_used norm mtext prev).1) ∧
    catalogInv (st.load_rows strip norm rows).1 ∧
    (catalogInv st → catalogInv (st.host_submit_answer norm text).1) ∧
    (catalogInv st → catalogInv (st.unmark_answer key).1.1) := by
  refine ⟨consumedSubset_load strip norm rows,
    fun al d h => find_match_mem norm al mtext prev d h,
    fun al h => consumedSubset_mark_used norm al mtext prev h, ?_, ?_, ?_⟩
  · unfold GameController.load_rows
    intro al2 h2
    have h2' : some (AnswerList.load_from_tabular_rows strip norm rows) =
        some al2 := h2
    cases h2'
    exact consumedSubset_load strip norm rows
  · intro hinv
    rcases GameController.host_submit_effect norm st text with
      ⟨ha, _⟩ | ⟨al, matched, hal, hm, hres, _⟩
    · intro al2 h2
      rw [ha] at h2
      exact hinv al2 h2
    · intro al2 h2
      rw [hres] at h2
      have h2' := Option.some.inj h2
      rw [← h2']
      exact consumedSubset_mark_used norm al (extract_answer_text text)
        st.last_answered_class (hinv al hal)
  · intro hinv
    unfold GameController.unmark_answer
    cases hal : st.answer_list with
    | none => exact hinv
    | some al =>
        dsimp only
        by_cases hc : al.used.contains key = true
        · rw [if_pos hc]
          intro al2 h2
          have h2' : some ({ al with
              used := al.used.filter (fun k => !(k == key)) }) =
              some al2 := h2
          cases h2'
          intro d hd
          exact hinv al hal d (List.mem_filter.mp hd).1
        · rw [if_neg hc]
          exact hinv

/-- Witness for C6 at a concrete loaded running state: the invariant holds
after a submission and after an unmark. -/
theorem consumed_subset_invariant_spec_witness :
    catalogInv ((witC3State.host_submit_answer (fun s => s) "zzz").1) ∧
    catalogInv ((witC3State.unmark_answer "a-x").1.1) := by
  have hbase : catalogInv witC3State := by
    intro al h
    have h' : some witCatalog = some al := h
    cases h'
    intro d hd
    cases hd
  constructor
  · exact (consumed_subset_invariant_spec (fun s => s) (fun s => s)
      witC3State [] "zzz" "a-x" "m" none).2.2.2.2.1 hbase
  · exact (consumed_subset_invariant_spec (fun s => s) (fun s => s)
      witC3State [] "zzz" "a-x" "m" none).2.2.2.2.2 hbase

/-- The C10 invariant: the answered chronology holds no duplicate display
keys and every key in it is consumed in the loaded catalog. -/
def chronologyInv (st : GameController) : Prop :=
  st.answered_order.Nodup ∧
    ∀ al, st.answer_list = some al → ∀ k ∈ st.answered_order, k ∈ al.used

/-- Counterexample to C10 as stated: loading a catalog whose unanswered
section lists the same display key twice and whose answered section marks
that key consumed produces a reachable state whose chronology holds the
key twice. -/
theorem chronology_duplicate_counterexample :
    (GameController.init.load_rows (fun s => s) (fun s => s)
        [["x", "m"], ["x", "m"], [], ["x", "m"]]).1.answered_order =
      ["x", "x"] ∧
    ¬ ((GameController.init.load_rows (fun s => s) (fun s => s)
        [["x", "m"], ["x", "m"], [], ["x", "m"]]).1.answered_order).Nodup :=
  ⟨by decide, by decide⟩

/-- C10 (amended): provided the loaded catalog's entry list is
duplicate-free, `load_rows` rebuilds a chronology satisfying the invariant
(no duplicates, every key consumed); `host_submit_answer` appends the
accepted key only when absent and only after marking it consumed, and
`unmark_answer` removes the key from both the consumed set and the
chronology, so both preserve the invariant at every state. -/
theorem chronology_invariant_spec (strip norm : String → String)
    (st : GameController) (rows : List (List String)) (text key : String)
    (hnd : (AnswerList.load_from_tabular_rows strip norm rows).items.Nodup) :
    chronologyInv (st.load_rows strip norm rows).1 ∧
    (chronologyInv st → chronologyInv (st.host_submit_answer norm text).1) ∧
    (chronologyInv st → chronologyInv (st.unmark_answer key).1.1) := by
  refine ⟨⟨?_, ?_⟩, ?_, ?_⟩
  · exact hnd.filter _
  · intro al2 h2
    have h2' : some (AnswerList.load_from_tabular_rows strip norm rows) =
        some al2 := h2
    cases h2'
    intro k hk
    have hk' : k ∈ (AnswerList.load_from_tabular_rows strip norm
        rows).items.filter
        (fun i => (AnswerList.load_from_tabular_rows strip norm
          rows).used.contains i) := hk
    have hc := (List.mem_filter.mp hk').2
    simpa using hc
  · intro h
    obtain ⟨hnodup, hmem⟩ := h
    rcases GameController.host_submit_effect norm st text with
      ⟨ha, ho⟩ | ⟨al, matched, hal, hm, hres, hord⟩
    · refine ⟨?_, ?_⟩
      · rw [ho]
        exact hnodup
      · intro al2 h2
        rw [ha] at h2
        intro k hk
        rw [ho] at hk
        exact hmem al2 h2 k hk
    · have hused : ∀ x, (x ∈ al.used ∨ x = matched) →
          x ∈ (al.mark_used norm (extract_answer_text text)
            st.last_answered_class).1.used := by
        unfold AnswerList.mark_used
        rw [hm]
        dsimp only
        intro x hx
        by_cases hc : al.used.contains matched = true
        · rw [if_pos hc]
          rcases hx with hx | rfl
          · exact hx
          · simpa using hc
        · rw [if_neg hc]
          rcases hx with hx | rfl
          · exact List.mem_cons_of_mem _ hx
          · exact List.mem_cons_self _ _
      refine ⟨?_, ?_⟩
      · rw [hord]
        by_cases hcon : st.answered_order.contains matched = true
        · rw [if_pos hcon]
          exact hnodup
        · rw [if_neg hcon]
          have hnotin : matched ∉ st.answered_order := by simpa using hcon
          simp [List.nodup_append, hnodup, hnotin]
      · intro al2 h2
        rw [hres] at h2
        have h2' := Option.some.inj h2
        intro k hk
        rw [hord] at hk
        rw [← h2']
        by_cases hcon : st.answered_order.contains matched = true
        · rw [if_pos hcon] at hk
          exact hused k (Or.inl (hmem al hal k hk))
        · rw [if_neg hcon] at hk
          rcases List.mem_append.mp hk with hk | hk
          · exact hused k (Or.inl (hmem al hal k hk))
          · exact hused k (Or.inr (List.mem_singleton.mp hk))
  · intro h
    obtain ⟨hnodup, hmem⟩ := h
    unfold GameController.unmark_answer
    cases hal : st.answer_list with
    | none => exact ⟨hnodup, hmem⟩
    | some al =>
        dsimp only
        by_cases hc : al.used.contains key = true
        · rw [if_pos hc]
          refine ⟨?_, ?_⟩
          · exact hnodup.erase key
          · intro al2 h2
            have h2' : some ({ al with
                used := al.used.filter (fun q => !(q == key)) }) =
                some al2 := h2
            cases h2'
            intro k2 hk2
            have hk2' : k2 ∈ st.answered_order.erase key := hk2
            have hand := (List.Nodup.mem_erase_iff hnodup).mp hk2'
            refine List.mem_filter.mpr ⟨hmem al hal k2 hand.2, ?_⟩
            simpa using hand.1
        · rw [if_neg hc]
          exact ⟨hnodup, hmem⟩

/-- Witness for C10 at a concrete duplicate-free load. -/
theorem chronology_invariant_spec_witness :
    chronologyInv ((GameController.init.load_rows (fun s => s) (fun s => s)
      [["a", "x"], [], ["a", "x"]]).1) :=
  (chronology_invariant_spec (fun s => s) (fun s => s) GameController.init
    [["a", "x"], [], ["a", "x"]] "t" "k" (by decide)).1

/-- The full-width image of the ASCII parentheses (identity elsewhere). -/
def asciiToFW (c : Char) : Char :=
  if c = '(' then '（' else if c = ')' then '）' else c

/-- The last-open/last-close extraction core that both parenthesis branches
of `extract_answer_text` instantiate, with their delimiter pair. -/
def extractCore (cs : List Char) (op cl : Char) (fallback : String) :
    String :=
  match listRfind cs op, listRfind cs cl with
  | some s, some e =>
      if s < e then String.mk ((cs.drop (s + 1)).take (e - (s + 1)))
      else fallback
  | _, _ => fallback

/-- A successful `rfind` means the character occurs. -/
theorem listRfind_contains (cs : List Char) (c : Char) (i : Nat)
    (h : listRfind cs c = some i) : cs.contains c = true := by
  unfold listRfind at h
  rcases Option.map_eq_some'.mp h with ⟨pr, hpr, _⟩
  have hmem := List.mem_of_mem_getLast? hpr
  have hf := List.mem_filter.mp hmem
  have hc : pr.2 = c := by simpa using hf.2
  have hm2 : pr.2 ∈ cs := List.snd_mem_of_mem_enum hf.1
  rw [hc] at hm2
  simpa using hm2

/-- `extract_answer_text` is the common core applied first to the
full-width pair, then to the ASCII pair, with the whole text as
fallback — the two parenthesis alphabets run the identical algorithm. -/
theorem extract_eq_core (text : String) :
    extract_answer_text text =
      (if (text.toList.contains '（' && text.toList.contains '）') = true
        then extractCore text.toList '（' '）' text
        else if (text.toList.contains '(' && text.toList.contains ')') = true
        then extractCore text.toList '(' ')' text
        else text) := by
  unfold extract_answer_text extractCore
  rfl

/-- `contains` after mapping, when the map reflects the searched character
onto a unique preimage along the list. -/
theorem contains_map_eq (cs : List Char) (f : Char → Char) (d c0 : Char)
    (hf : ∀ c ∈ cs, (f c = d) ↔ (c = c0)) :
    (cs.map f).contains d = cs.contains c0 := by
  induction cs with
  | nil => rfl
  | cons a t ih =>
      simp only [List.map_cons, List.contains_cons]
      rw [ih (fun c hc => hf c (List.mem_cons_of_mem _ hc))]
      have hbe : (d == f a) = (c0 == a) := by
        rw [beq_eq_decide, beq_eq_decide]
        refine decide_eq_decide.mpr ?_
        constructor
        · intro h
          exact ((hf a (List.mem_cons_self a t)).mp h.symm).symm
        · intro h
          exact ((hf a (List.mem_cons_self a t)).mpr h.symm).symm
      rw [hbe]

/-- `rfind` after mapping, when the map reflects the searched character
onto a unique preimage along the list: same index. -/
theorem listRfind_map_eq (cs : List Char) (f : Char → Char) (d c0 : Char)
    (hf : ∀ c ∈ cs, (f c = d) ↔ (c = c0)) :
    listRfind (cs.map f) d = listRfind cs c0 := by
  unfold listRfind
  rw [List.enum_map, List.filter_map]
  have hcong : List.filter ((fun e => e.2 == d) ∘ Prod.map id f) cs.enum =
      List.filter (fun e => e.2 == c0) cs.enum := by
    refine List.filter_congr ?_
    intro pr hpr
    have hm : pr.2 ∈ cs := List.snd_mem_of_mem_enum hpr
    show (f pr.2 == d) = (pr.2 == c0)
    rw [beq_eq_decide, beq_eq_decide]
    exact decide_eq_decide.mpr (hf pr.2 hm)
  rw [hcong, List.getLast?_map]
  cases (List.filter (fun e => e.2 == c0) cs.enum).getLast? with
  | none => rfl
  | some pr => rfl

/-- On a text free of full-width parentheses, replacing the ASCII
parentheses by their full-width forms gives the full-width branch exactly
the behavior the ASCII branch had: the extraction commutes with the
character map. -/
theorem extract_map_fw (text : String)
    (hfw : ∀ c ∈ text.toList, c ≠ '（' ∧ c ≠ '）') :
    extract_answer_text (String.mk (text.toList.map asciiToFW)) =
      String.mk ((extract_answer_text text).toList.map asciiToFW) := by
  have h1 : ∀ c ∈ text.toList, (asciiToFW c = '（') ↔ (c = '(') := by
    intro c hc
    unfold asciiToFW
    by_cases h : c = '('
    · rw [if_pos h]
      exact ⟨fun _ => h, fun _ => rfl⟩
    · rw [if_neg h]
      by_cases h2 : c = ')'
      · rw [if_pos h2]
        exact ⟨fun hx => absurd hx (by decide), fun hx => absurd hx h⟩
      · rw [if_neg h2]
        exact ⟨fun hx => absurd hx (hfw c hc).1, fun hx => absurd hx h⟩
  have h2 : ∀ c ∈ text.toList, (asciiToFW c = '）') ↔ (c = ')') := by
    intro c hc
    unfold asciiToFW
    by_cases h : c = '('
    · rw [if_pos h]
      exact ⟨fun hx => absurd hx (by decide), fun hx => absurd hx (h ▸ hx ▸ (by decide : ('(' : Char) ≠ ')'))⟩
    · rw [if_neg h]
      by_cases h2 : c = ')'
      · rw [if_pos h2]
        exact ⟨fun _ => h2, fun _ => rfl⟩
      · rw [if_neg h2]
        exact ⟨fun hx => absurd hx (hfw c hc).2, fun hx => absurd hx h2⟩
  have hc1 : text.toList.contains '（' = false := by
    rcases Bool.eq_false_or_eq_true (text.toList.contains '（') with h | h
    · exfalso
      have hm : '（' ∈ text.toList := by simpa using h
      exact (hfw _ hm).1 rfl
    · exact h
  have hc2 : text.toList.contains '）' = false := by
    rcases Bool.eq_false_or_eq_true (text.toList.contains '）') with h | h
    · exfalso
      have hm : '）' ∈ text.toList := by simpa using h
      exact (hfw _ hm).2 rfl
    · exact h
  have htl : (String.mk (text.toList.map asciiToFW)).toList =
      text.toList.map asciiToFW := rfl
  rw [extract_eq_core, extract_eq_core, htl]
  rw [contains_map_eq text.toList asciiToFW '（' '(' h1]
  rw [contains_map_eq text.toList asciiToFW '）' ')' h2]
  rw [hc1]
  simp only [Bool.false_and, Bool.false_eq_true, if_false]
  by_cases hA : (text.toList.contains '(' && text.toList.contains ')') = true
  · rw [if_pos hA, if_pos hA]
    unfold extractCore
    rw [listRfind_map_eq text.toList asciiToFW '（' '(' h1]
    rw [listRfind_map_eq text.toList asciiToFW '）' ')' h2]
    cases hs : listRfind text.toList '(' with
    | none => rfl
    | some s =>
        cases he : listRfind text.toList ')' with
        | none => rfl
        | some e =>
            dsimp only
            by_cases hse : s < e
            · rw [if_pos hse, if_pos hse]
              refine congrArg String.mk ?_
              show ((text.toList.map asciiToFW).drop (s + 1)).take
                    (e - (s + 1)) =
                  ((text.toList.drop (s + 1)).take
                    (e - (s + 1))).map asciiToFW
              rw [List.map_take, List.map_drop]
            · rw [if_neg hse, if_neg hse]
  · rw [if_neg hA]
    have hLp : ((text.toList.map asciiToFW).contains '(') = false := by
      rcases Bool.eq_false_or_eq_true
          ((text.toList.map asciiToFW).contains '(') with h | h
      · exfalso
        have hm : '(' ∈ text.toList.map asciiToFW := by simpa using h
        rcases List.mem_map.mp hm with ⟨c, hc, he⟩
        unfold asciiToFW at he
        by_cases hp : c = '('
        · rw [if_pos hp] at he
          exact absurd he (by decide)
        · rw [if_neg hp] at he
          by_cases hq : c = ')'
          · rw [if_pos hq] at he
            exact absurd he (by decide)
          · rw [if_neg hq] at he
            exact hp he
      · exact h
    rw [hLp]
    simp only [Bool.false_and, Bool.false_eq_true, if_false]
    rw [if_neg hA]

/-- Counterexample to C8 as stated: this text holds a well-ordered
parenthetical pair (indices 0 < 2), yet the code compares last-open (4)
against last-close (2) and keeps the whole string as the matching text. -/
theorem extract_rightmost_counterexample :
    (∃ i j : Nat, i < j ∧ "（a）x（".toList[i]? = some '（' ∧
      "（a）x（".toList[j]? = some '）') ∧
    extract_answer_text "（a）x（" = "（a）x（" := by
  constructor
  · exact ⟨0, 2, by decide, by decide, by decide⟩
  · decide

/-- One-entry catalog for the C8 scenario: display 兵庫 accepts あいおい. -/
def witC8Catalog : AnswerList :=
  { items := ["兵庫"], used := [],
    matchMap := [("兵庫", "あいおい")],
    classMap := [("兵庫", "あいおい")],
    elementMap := [("兵庫", "あいおい")],
    displayMap := [("兵庫", (["兵庫"], ["あいおい"]))] }

/-- C8 (amended): the extraction inspects only the LAST occurrence of the
opening and of the closing parenthesis, trying the full-width pair first
(it takes precedence whenever both full-width characters occur anywhere)
and the ASCII pair otherwise: when last-open precedes last-close the
interior of that pair becomes the matching text, in every other case the
whole text is used — a well-ordered pair that is not the
last-open/last-close pair does not trigger extraction.  Both alphabets run
the identical core algorithm, and on texts free of full-width parentheses
the full-width behavior mirrors the ASCII behavior exactly under the
character translation.  Concretely, 兵庫（あいおい） is matched through
its interior あいおい. -/
theorem extract_parenthetical_spec (text : String) (s e : Nat) :
    (extract_answer_text text =
      (if (text.toList.contains '（' && text.toList.contains '）') = true
        then extractCore text.toList '（' '）' text
        else if (text.toList.contains '('
            && text.toList.contains ')') = true
        then extractCore text.toList '(' ')' text
        else text)) ∧
    (listRfind text.toList '（' = some s →
      listRfind text.toList '）' = some e → s < e →
      extract_answer_text text =
        String.mk ((text.toList.drop (s + 1)).take (e - (s + 1)))) ∧
    (listRfind text.toList '（' = some s →
      listRfind text.toList '）' = some e → e ≤ s →
      extract_answer_text text = text) ∧
    ((text.toList.contains '（' && text.toList.contains '）') = false →
      listRfind text.toList '(' = some s →
      listRfind text.toList ')' = some e → s < e →
      extract_answer_text text =
        String.mk ((text.toList.drop (s + 1)).take (e - (s + 1)))) ∧
    ((text.toList.contains '（' && text.toList.contains '）') = false →
      listRfind text.toList '(' = some s →
      listRfind text.toList ')' = some e → e ≤ s →
      extract_answer_text text = text) ∧
    ((text.toList.contains '（' && text.toList.contains '）') = false →
      (text.toList.contains '(' && text.toList.contains ')') = false →
      extract_answer_text text = text) ∧
    ((∀ c ∈ text.toList, c ≠ '（' ∧ c ≠ '）') →
      extract_answer_text (String.mk (text.toList.map asciiToFW)) =
        String.mk ((extract_answer_text text).toList.map asciiToFW)) ∧
    (extract_answer_text "兵庫（あいおい）" = "あいおい" ∧
      witC8Catalog.find_match (fun s2 => s2)
        (extract_answer_text "兵庫（あいおい）") none = some "兵庫") := by
  refine ⟨extract_eq_core text, ?_, ?_, ?_, ?_, ?_, extract_map_fw text,
    by decide, by decide⟩
  · intro hs he hlt
    have hcs := listRfind_contains _ _ _ hs
    have hce := listRfind_contains _ _ _ he
    rw [extract_eq_core,
      if_pos (Bool.and_eq_true_iff.mpr ⟨hcs, hce⟩)]
    unfold extractCore
    rw [hs, he]
    dsimp only
    rw [if_pos hlt]
  · intro hs he hge
    have hcs := listRfind_contains _ _ _ hs
    have hce := listRfind_contains _ _ _ he
    rw [extract_eq_core,
      if_pos (Bool.and_eq_true_iff.mpr ⟨hcs, hce⟩)]
    unfold extractCore
    rw [hs, he]
    dsimp only
    rw [if_neg (by omega : ¬ s < e)]
  · intro hno hs he hlt
    have hcs := listRfind_contains _ _ _ hs
    have hce := listRfind_contains _ _ _ he
    rw [extract_eq_core, hno]
    simp only [Bool.false_eq_true, if_false]
    rw [if_pos (Bool.and_eq_true_iff.mpr ⟨hcs, hce⟩)]
    unfold extractCore
    rw [hs, he]
    dsimp only
    rw [if_pos hlt]
  · intro hno hs he hge
    have hcs := listRfind_contains _ _ _ hs
    have hce := listRfind_contains _ _ _ he
    rw [extract_eq_core, hno]
    simp only [Bool.false_eq_true, if_false]
    rw [if_pos (Bool.and_eq_true_iff.mpr ⟨hcs, hce⟩)]
    unfold extractCore
    rw [hs, he]
    dsimp only
    rw [if_neg (by omega : ¬ s < e)]
  · intro hno1 hno2
    rw [extract_eq_core, hno1]
    simp only [Bool.false_eq_true, if_false]
    rw [hno2]
    simp only [Bool.false_eq_true, if_false]

/-- Witness for C8: the last full-width pair of a（b） sits at indices
1 and 3, and the extraction returns its interior. -/
theorem extract_parenthetical_spec_witness :
    extract_answer_text "a（b）" =
      String.mk ((("a（b）".toList).drop (1 + 1)).take (3 - (1 + 1))) :=
  (extract_parenthetical_spec "a（b）" 1 3).2.1 (by decide) (by decide)
    (by decide)

/-- Lookup after assignment: the new binding wins. -/
theorem dictGet_put_self {α : Type} (m : List (String × α)) (k : String)
    (v : α) : dictGet (dictPut m k v) k = some v := by
  unfold dictGet dictPut
  rw [List.find?_cons_of_pos m (by simp)]
  rfl

/-- Lookup after assignment of a different key: unchanged. -/
theorem dictGet_put_other {α : Type} (m : List (String × α)) (k k' : String)
    (v : α) (h : ¬ k' = k) : dictGet (dictPut m k v) k' = dictGet m k' := by
  unfold dictGet dictPut
  rw [List.find?_cons_of_neg m (by simpa using fun he => h he.symm)]

/-- Even-position cells come from the row. -/
theorem pickEven_subset : ∀ (row : List String) (x : String),
    x ∈ pickEven row → x ∈ row
  | [], x, hx => absurd hx (List.not_mem_nil x)
  | [_], _, hx => hx
  | a :: b :: t, x, hx => by
      have hx' : x ∈ a :: pickEven t := hx
      rcases List.mem_cons.mp hx' with rfl | hx2
      · exact List.mem_cons_self _ _
      · exact List.mem_cons_of_mem _
          (List.mem_cons_of_mem _ (pickEven_subset t x hx2))

/-- Odd-position cells come from the row. -/
theorem pickOdd_subset : ∀ (row : List String) (x : String),
    x ∈ pickOdd row → x ∈ row
  | [], x, hx => absurd hx (List.not_mem_nil x)
  | [_], x, hx => absurd hx (List.not_mem_nil x)
  | a :: b :: t, x, hx => by
      have hx' : x ∈ b :: pickOdd t := hx
      rcases List.mem_cons.mp hx' with rfl | hx2
      · exact List.mem_cons_of_mem _ (List.mem_cons_self _ _)
      · exact List.mem_cons_of_mem _
          (List.mem_cons_of_mem _ (pickOdd_subset t x hx2))

/-- Re-interleaving the even/odd split of an even-length row restores the
row (the `row.extend([d, m])` loop is inverse to the parsing split). -/
theorem interleave_pick : ∀ (row : List String), row.length % 2 = 0 →
    AnswerList.interleavePairs ((pickEven row).zip (pickOdd row)) = row
  | [], _ => rfl
  | [_], h => absurd h (by simp)
  | a :: b :: t, h => by
      have ht : t.length % 2 = 0 := by
        simp only [List.length_cons] at h
        omega
      show a :: b ::
          AnswerList.interleavePairs ((pickEven t).zip (pickOdd t)) =
        a :: b :: t
      rw [interleave_pick t ht]

/-- A well-formed data row as claim C4 requires: non-empty, an even number
of cells (display/match pairs), every cell stripped-clean and non-blank,
and a non-blank normalized key. -/
def goodRow (strip norm : String → String) (row : List String) : Prop :=
  row ≠ [] ∧ row.length % 2 = 0 ∧
  (∀ c ∈ row, strip c = c ∧ c ≠ "") ∧
  rowKey strip norm row ≠ ""

/-- A non-empty even-length row has at least two cells. -/
theorem goodRow_shape (row : List String) (hne : row ≠ [])
    (hev : row.length % 2 = 0) : ∃ a b t, row = a :: b :: t := by
  cases row with
  | nil => exact absurd rfl hne
  | cons a r2 =>
      cases r2 with
      | nil => simp at hev
      | cons b t => exact ⟨a, b, t, rfl⟩

/-- With stripped-clean non-blank cells the display parse is exactly the
even positions. -/
theorem rowDisplays_eq (strip : String → String) (row : List String)
    (hcells : ∀ c ∈ row, strip c = c ∧ c ≠ "") :
    rowDisplays strip row = pickEven row := by
  unfold rowDisplays
  have hmap : (pickEven row).map strip = pickEven row := by
    have h1 : (pickEven row).map strip = (pickEven row).map id :=
      List.map_congr_left
        (fun a ha => (hcells a (pickEven_subset row a ha)).1)
    rw [h1, List.map_id]
  rw [hmap]
  refine List.filter_eq_self.mpr ?_
  intro a ha
  have hne := (hcells a (pickEven_subset row a ha)).2
  simp [hne]

/-- With stripped-clean non-blank cells the match parse is exactly the odd
positions. -/
theorem rowMatches_eq (strip : String → String) (row : List String)
    (hcells : ∀ c ∈ row, strip c = c ∧ c ≠ "") :
    rowMatches strip row = pickOdd row := by
  unfold rowMatches
  have hmap : (pickOdd row).map strip = pickOdd row := by
    have h1 : (pickOdd row).map strip = (pickOdd row).map id :=
      List.map_congr_left
        (fun a ha => (hcells a (pickOdd_subset row a ha)).1)
    rw [h1, List.map_id]
  rw [hmap]
  refine List.filter_eq_self.mpr ?_
  intro a ha
  have hne := (hcells a (pickOdd_subset row a ha)).2
  simp [hne]

/-- A well-formed data row is never taken for the separator. -/
theorem goodRow_not_sep (strip norm : String → String) (row : List String)
    (hg : goodRow strip norm row) : isSepRow strip row = false := by
  obtain ⟨hne, hev, hcells, _⟩ := hg
  obtain ⟨a, b, t, rfl⟩ := goodRow_shape _ hne hev
  unfold isSepRow
  simp only [List.all_cons]
  have h1 : (strip a == "") = false := by
    rw [(hcells a (List.mem_cons_self a _)).1]
    exact beq_eq_false_iff_ne.mpr (hcells a (List.mem_cons_self a _)).2
  rw [h1]
  rfl

/-- The separator scan splits a well-formed input at its empty row. -/
theorem split_at_sep (strip : String → String)
    (pre post : List (List String))
    (hpre : ∀ r ∈ pre, isSepRow strip r = false) :
    (pre ++ [[]] ++ post).takeWhile (fun r => !(isSepRow strip r)) = pre ∧
    (pre ++ [[]] ++ post).dropWhile (fun r => !(isSepRow strip r)) =
      [[]] ++ post := by
  induction pre with
  | nil => exact ⟨rfl, rfl⟩
  | cons r t ih =>
      have hr := hpre r (List.mem_cons_self r t)
      have ihh := ih (fun x hx => hpre x (List.mem_cons_of_mem _ hx))
      constructor
      · show (r :: (t ++ [[]] ++ post)).takeWhile
            (fun r => !(isSepRow strip r)) = r :: t
        rw [List.takeWhile_cons, hr]
        simp only [Bool.not_false, if_true]
        rw [ihh.1]
      · show (r :: (t ++ [[]] ++ post)).dropWhile
            (fun r => !(isSepRow strip r)) = [[]] ++ post
        rw [List.dropWhile_cons, hr]
        simp only [Bool.not_false, if_true]
        exact ihh.2

/-- On a well-formed row the unanswered loop body runs its main branch:
append the key and record the four maps. -/
theorem preStep_good (strip norm : String → String) (al : AnswerList)
    (row : List String) (hg : goodRow strip norm row) :
    AnswerList.preStep strip norm al row =
      { al with
        items := al.items ++ [rowKey strip norm row]
        matchMap := dictPut al.matchMap (rowKey strip norm row)
          (norm (String.join (rowMatches strip row)))
        classMap := dictPut al.classMap (rowKey strip norm row)
          (norm ((rowMatches strip row).headD ""))
        elementMap := dictPut al.elementMap (rowKey strip norm row)
          (norm ((rowMatches strip row).getLastD ""))
        displayMap := dictPut al.displayMap (rowKey strip norm row)
          (rowDisplays strip row, rowMatches strip row) } := by
  obtain ⟨hne, hev, hcells, hkey⟩ := hg
  obtain ⟨a, b, t, rfl⟩ := goodRow_shape _ hne hev
  have hg1 : ((rowDisplays strip (a :: b :: t)).isEmpty
      || (rowMatches strip (a :: b :: t)).isEmpty) = false := by
    rw [rowDisplays_eq strip _ hcells, rowMatches_eq strip _ hcells]
    rfl
  have hg2 : (norm (String.intercalate "-"
      (rowDisplays strip (a :: b :: t))) == "") = false := by
    unfold rowKey at hkey
    exact beq_eq_false_iff_ne.mpr hkey
  unfold AnswerList.preStep
  dsimp only
  rw [hg1]
  simp only [Bool.false_eq_true, if_false]
  rw [hg2]
  simp only [Bool.false_eq_true, if_false]
  rfl

/-- On a well-formed row whose key is fresh (not an entry, no stored
structure, not consumed) the answered loop body appends the entry, stores
the structure and marks the key consumed. -/
theorem postStep_good_fresh (strip norm : String → String)
    (al : AnswerList) (row : List String) (hg : goodRow strip norm row)
    (hfresh : rowKey strip norm row ∉ al.items)
    (hdisp : dictGet al.displayMap (rowKey strip norm row) = none)
    (hused : rowKey strip norm row ∉ al.used) :
    AnswerList.postStep strip norm al row =
      { al with
        items := al.items ++ [rowKey strip norm row]
        matchMap := dictPut al.matchMap (rowKey strip norm row)
          (norm (String.join (rowMatches strip row)))
        classMap := dictPut al.classMap (rowKey strip norm row)
          (norm ((rowMatches strip row).headD ""))
        elementMap := dictPut al.elementMap (rowKey strip norm row)
          (norm ((rowMatches strip row).getLastD ""))
        displayMap := dictPut al.displayMap (rowKey strip norm row)
          (rowDisplays strip row, rowMatches strip row)
        used := rowKey strip norm row :: al.used } := by
  obtain ⟨hne, hev, hcells, hkey⟩ := hg
  obtain ⟨a, b, t, rfl⟩ := goodRow_shape _ hne hev
  have hg1 : ((rowDisplays strip (a :: b :: t)).isEmpty
      || (rowMatches strip (a :: b :: t)).isEmpty) = false := by
    rw [rowDisplays_eq strip _ hcells, rowMatches_eq strip _ hcells]
    rfl
  have hg2 : (norm (String.intercalate "-"
      (rowDisplays strip (a :: b :: t))) == "") = false := by
    unfold rowKey at hkey
    exact beq_eq_false_iff_ne.mpr hkey
  have hfresh' : al.items.contains (norm (String.intercalate "-"
      (rowDisplays strip (a :: b :: t)))) = false := by
    unfold rowKey at hfresh
    simpa using hfresh
  have hused' : al.used.contains (norm (String.intercalate "-"
      (rowDisplays strip (a :: b :: t)))) = false := by
    unfold rowKey at hused
    simpa using hused
  have hdisp' : dictGet al.displayMap (norm (String.intercalate "-"
      (rowDisplays strip (a :: b :: t)))) = none := by
    unfold rowKey at hdisp
    exact hdisp
  unfold AnswerList.postStep
  dsimp only
  rw [hg1]
  simp only [Bool.false_eq_true, if_false]
  rw [hg2]
  simp only [Bool.false_eq_true, if_false]
  rw [hfresh']
  simp only [Bool.false_eq_true, if_false]
  rw [hdisp']
  simp only [Option.isSome_none, Bool.false_eq_true, if_false]
  rw [hused']
  simp only [Bool.false_eq_true, if_false]
  rfl

/-- The unanswered fold: appends the row keys in order, never touches
`used`, leaves foreign display structures alone, and stores each row's
structure under its key (when the section's keys are distinct). -/
theorem preFold_char (strip norm : String → String)
    (L : List (List String)) :
    ∀ (al : AnswerList), (∀ r ∈ L, goodRow strip norm r) →
    (L.foldl (AnswerList.preStep strip norm) al).items =
        al.items ++ L.map (rowKey strip norm) ∧
    (L.foldl (AnswerList.preStep strip norm) al).used = al.used ∧
    (∀ k, k ∉ L.map (rowKey strip norm) →
      dictGet (L.foldl (AnswerList.preStep strip norm) al).displayMap k =
        dictGet al.displayMap k) ∧
    (∀ r ∈ L, (L.map (rowKey strip norm)).Nodup →
      dictGet (L.foldl (AnswerList.preStep strip norm) al).displayMap
          (rowKey strip norm r) =
        some (rowDisplays strip r, rowMatches strip r)) := by
  induction L with
  | nil =>
      intro al _
      exact ⟨by simp, rfl, fun k _ => rfl,
        fun r hr _ => absurd hr (List.not_mem_nil r)⟩
  | cons r0 t ih =>
      intro al hL
      have hg0 := hL r0 (List.mem_cons_self r0 t)
      have ht : ∀ r ∈ t, goodRow strip norm r :=
        fun r hr => hL r (List.mem_cons_of_mem r0 hr)
      simp only [List.foldl_cons]
      rw [preStep_good strip norm al r0 hg0]
      obtain ⟨hi, hu, hother, hself⟩ := ih _ ht
      refine ⟨?_, ?_, ?_, ?_⟩
      · rw [hi]
        simp
      · rw [hu]
      · intro k hk
        have hk' : k ∉ rowKey strip norm r0 :: t.map (rowKey strip norm) :=
          by simpa using hk
        have hk1 : ¬ k = rowKey strip norm r0 :=
          fun h => hk' (List.mem_cons.mpr (Or.inl h))
        have hk2 : k ∉ t.map (rowKey strip norm) :=
          fun h => hk' (List.mem_cons.mpr (Or.inr h))
        rw [hother k hk2]
        exact dictGet_put_other _ _ _ _ hk1
      · intro r hr hnd
        have hnd' : (rowKey strip norm r0 ::
            t.map (rowKey strip norm)).Nodup := by simpa using hnd
        have hnotin := (List.nodup_cons.mp hnd').1
        have hndt := (List.nodup_cons.mp hnd').2
        rcases List.mem_cons.mp hr with rfl | hr2
        · rw [hother _ hnotin]
          exact dictGet_put_self _ _ _
        · exact hself r hr2 hndt

/-- The answered fold from an accumulator whose entries, structures and
consumed set are disjoint from the section's (distinct) keys: appends the
keys in order, consumes exactly them on top of the previous consumed set,
leaves foreign display structures alone and stores each row's
structure. -/
theorem postFold_char (strip norm : String → String)
    (L : List (List String)) :
    ∀ (al : AnswerList), (∀ r ∈ L, goodRow strip norm r) →
    (∀ r ∈ L, rowKey strip norm r ∉ al.items) →
    (∀ r ∈ L, dictGet al.displayMap (rowKey strip norm r) = none) →
    (∀ r ∈ L, rowKey strip norm r ∉ al.used) →
    (L.map (rowKey strip norm)).Nodup →
    (L.foldl (AnswerList.postStep strip norm) al).items =
        al.items ++ L.map (rowKey strip norm) ∧
    (∀ x, x ∈ (L.foldl (AnswerList.postStep strip norm) al).used ↔
        (x ∈ al.used ∨ x ∈ L.map (rowKey strip norm))) ∧
    (∀ k, k ∉ L.map (rowKey strip norm) →
      dictGet (L.foldl (AnswerList.postStep strip norm) al).displayMap k =
        dictGet al.displayMap k) ∧
    (∀ r ∈ L,
      dictGet (L.foldl (AnswerList.postStep strip norm) al).displayMap
          (rowKey strip norm r) =
        some (rowDisplays strip r, rowMatches strip r)) := by
  induction L with
  | nil =>
      intro al _ _ _ _ _
      exact ⟨by simp, fun x => by simp, fun k _ => rfl,
        fun r hr => absurd hr (List.not_mem_nil r)⟩
  | cons r0 t ih =>
      intro al hL hit hdm hus hnd
      have hg0 := hL r0 (List.mem_cons_self r0 t)
      have ht : ∀ r ∈ t, goodRow strip norm r :=
        fun r hr => hL r (List.mem_cons_of_mem r0 hr)
      have hnd' : (rowKey strip norm r0 ::
          t.map (rowKey strip norm)).Nodup := by simpa using hnd
      have hnotin := (List.nodup_cons.mp hnd').1
      have hndt := (List.nodup_cons.mp hnd').2
      have hkne : ∀ r ∈ t, rowKey strip norm r ≠ rowKey strip norm r0 := by
        intro r hr he
        exact hnotin (he ▸ List.mem_map_of_mem (rowKey strip norm) hr)
      simp only [List.foldl_cons]
      rw [postStep_good_fresh strip norm al r0 hg0
        (hit r0 (List.mem_cons_self r0 t))
        (hdm r0 (List.mem_cons_self r0 t))
        (hus r0 (List.mem_cons_self r0 t))]
      have h1 : ∀ r ∈ t,
          rowKey strip norm r ∉ al.items ++ [rowKey strip norm r0] := by
        intro r hr hmem
        rcases List.mem_append.mp hmem with hmem | hmem
        · exact hit r (List.mem_cons_of_mem r0 hr) hmem
        · exact hkne r hr (List.mem_singleton.mp hmem)
      have h2 : ∀ r ∈ t,
          dictGet (dictPut al.displayMap (rowKey strip norm r0)
            (rowDisplays strip r0, rowMatches strip r0))
            (rowKey strip norm r) = none := by
        intro r hr
        rw [dictGet_put_other _ _ _ _ (hkne r hr)]
        exact hdm r (List.mem_cons_of_mem r0 hr)
      have h3 : ∀ r ∈ t,
          rowKey strip norm r ∉ rowKey strip norm r0 :: al.used := by
        intro r hr hmem
        rcases List.mem_cons.mp hmem with he | hmem
        · exact hkne r hr he
        · exact hus r (List.mem_cons_of_mem r0 hr) hmem
      obtain ⟨hi, hu, hother, hself⟩ := ih { al with
          items := al.items ++ [rowKey strip norm r0]
          matchMap := dictPut al.matchMap (rowKey strip norm r0)
            (norm (String.join (rowMatches strip r0)))
          classMap := dictPut al.classMap (rowKey strip norm r0)
            (norm ((rowMatches strip r0).headD ""))
          elementMap := dictPut al.elementMap (rowKey strip norm r0)
            (norm ((rowMatches strip r0).getLastD ""))
          displayMap := dictPut al.displayMap (rowKey strip norm r0)
            (rowDisplays strip r0, rowMatches strip r0)
          used := rowKey strip norm r0 :: al.used } ht h1 h2 h3 hndt
      refine ⟨?_, ?_, ?_, ?_⟩
      · rw [hi]
        simp
      · intro x
        rw [hu x]
        dsimp only
        constructor
        · intro h
          rcases h with h | h
          · rcases List.mem_cons.mp h with rfl | h
            · exact Or.inr (by simp)
            · exact Or.inl h
          · exact Or.inr (by simp [h])
        · intro h
          rcases h with h | h
          · exact Or.inl (List.mem_cons_of_mem _ h)
          · rcases List.mem_cons.mp (by simpa using h :
                x ∈ rowKey strip norm r0 :: t.map (rowKey strip norm)) with
              rfl | h
            · exact Or.inl (List.mem_cons_self _ _)
            · exact Or.inr h
      · intro k hk
        have hk' : k ∉ rowKey strip norm r0 :: t.map (rowKey strip norm) :=
          by simpa using hk
        have hk1 : ¬ k = rowKey strip norm r0 :=
          fun h => hk' (List.mem_cons.mpr (Or.inl h))
        have hk2 : k ∉ t.map (rowKey strip norm) :=
          fun h => hk' (List.mem_cons.mpr (Or.inr h))
        rw [hother k hk2]
        exact dictGet_put_other _ _ _ _ hk1
      · intro r hr
        rcases List.mem_cons.mp hr with rfl | hr2
        · have hnotin2 : rowKey strip norm r ∉
              t.map (rowKey strip norm) := hnotin
          rw [hother _ hnotin2]
          exact dictGet_put_self _ _ _
        · exact hself r hr2

/-- Saving any catalog whose entries are the two key sections in order,
whose consumed set is exactly the answered keys, and which stores every
row's parsed structure, reproduces the original rows. -/
theorem save_char (strip norm : String → String)
    (pre post : List (List String)) (al : AnswerList)
    (hpre : ∀ r ∈ pre, goodRow strip norm r)
    (hpost : ∀ r ∈ post, goodRow strip norm r)
    (hdisj : (pre.map (rowKey strip norm)).Disjoint
      (post.map (rowKey strip norm)))
    (hitems : al.items =
      pre.map (rowKey strip norm) ++ post.map (rowKey strip norm))
    (hused : ∀ x, x ∈ al.used ↔ x ∈ post.map (rowKey strip norm))
    (hdisp : ∀ r ∈ pre ++ post,
      dictGet al.displayMap (rowKey strip norm r) =
        some (rowDisplays strip r, rowMatches strip r)) :
    al.save_to_tabular = pre ++ [[]] ++ post := by
  have hrow : ∀ r ∈ pre ++ post,
      al.rowFor (rowKey strip norm r) = r := by
    intro r hr
    have hg : goodRow strip norm r := by
      rcases List.mem_append.mp hr with hr | hr
      · exact hpre r hr
      · exact hpost r hr
    obtain ⟨hne, hev, hcells, hkey⟩ := hg
    unfold AnswerList.rowFor
    rw [hdisp r hr]
    dsimp only
    rw [rowDisplays_eq strip r hcells, rowMatches_eq strip r hcells]
    exact interleave_pick r hev
  unfold AnswerList.save_to_tabular
  rw [hitems, List.filter_append, List.filter_append]
  have hfil1 : (pre.map (rowKey strip norm)).filter
      (fun i => !(al.used.contains i)) = pre.map (rowKey strip norm) := by
    refine List.filter_eq_self.mpr ?_
    intro k hk
    have hnm : k ∉ al.used := by
      intro hmem
      exact hdisj hk ((hused k).mp hmem)
    simpa using hnm
  have hfil2 : (post.map (rowKey strip norm)).filter
      (fun i => !(al.used.contains i)) = [] := by
    refine List.filter_eq_nil_iff.mpr ?_
    intro k hk
    have hc : al.used.contains k = true := by
      simpa using (hused k).mpr hk
    rw [hc]
    decide
  have hfil3 : (pre.map (rowKey strip norm)).filter
      (fun i => al.used.contains i) = [] := by
    refine List.filter_eq_nil_iff.mpr ?_
    intro k hk
    have hnm : k ∉ al.used := by
      intro hmem
      exact hdisj hk ((hused k).mp hmem)
    simpa using hnm
  have hfil4 : (post.map (rowKey strip norm)).filter
      (fun i => al.used.contains i) = post.map (rowKey strip norm) := by
    refine List.filter_eq_self.mpr ?_
    intro k hk
    simpa using (hused k).mpr hk
  rw [hfil1, hfil2, hfil3, hfil4]
  simp only [List.append_nil, List.nil_append]
  have hmp : (pre.map (rowKey strip norm)).map al.rowFor = pre := by
    rw [List.map_map]
    rw [show pre.map (al.rowFor ∘ rowKey strip norm) = pre.map id from
      List.map_congr_left
        (fun r hr => hrow r (List.mem_append.mpr (Or.inl hr)))]
    exact List.map_id pre
  have hmq : (post.map (rowKey strip norm)).map al.rowFor = post := by
    rw [List.map_map]
    rw [show post.map (al.rowFor ∘ rowKey strip norm) = post.map id from
      List.map_congr_left
        (fun r hr => hrow r (List.mem_append.mpr (Or.inr hr)))]
    exact List.map_id post
  rw [hmp, hmq]

/-- C4: for every well-formed tabular input with a separator row —
non-empty even-length rows of stripped-clean non-blank cells, non-blank
normalized keys, all keys distinct — saving the catalog obtained by
loading the input reproduces the input exactly: the same fragment rows in
the same order in the unanswered section, one empty separator row, then
the same answered section. -/
theorem save_load_round_trip_spec (strip norm : String → String)
    (pre post : List (List String))
    (hpre : ∀ r ∈ pre, goodRow strip norm r)
    (hpost : ∀ r ∈ post, goodRow strip norm r)
    (hnd : ((pre ++ post).map (rowKey strip norm)).Nodup) :
    (AnswerList.load_from_tabular_rows strip norm
        (pre ++ [[]] ++ post)).save_to_tabular = pre ++ [[]] ++ post := by
  rw [List.map_append] at hnd
  obtain ⟨hndp, hndq, hdisj⟩ := List.nodup_append.mp hnd
  have hload : AnswerList.load_from_tabular_rows strip norm
      (pre ++ [[]] ++ post) =
      post.foldl (AnswerList.postStep strip norm)
        (pre.foldl (AnswerList.preStep strip norm) AnswerList.empty) := by
    unfold AnswerList.load_from_tabular_rows
    obtain ⟨htake, hdrop⟩ := split_at_sep strip pre post
      (fun r hr => goodRow_not_sep strip norm r (hpre r hr))
    rw [htake, hdrop]
    rfl
  rw [hload]
  obtain ⟨hpi, hpu, hpother, hpself⟩ :=
    preFold_char strip norm pre AnswerList.empty hpre
  have hq1 : ∀ r ∈ post, rowKey strip norm r ∉
      (pre.foldl (AnswerList.preStep strip norm)
        AnswerList.empty).items := by
    intro r hr hmem
    rw [hpi] at hmem
    exact hdisj hmem (List.mem_map_of_mem _ hr)
  have hq2 : ∀ r ∈ post,
      dictGet (pre.foldl (AnswerList.preStep strip norm)
        AnswerList.empty).displayMap (rowKey strip norm r) = none := by
    intro r hr
    have hnm : rowKey strip norm r ∉ pre.map (rowKey strip norm) := by
      intro hmem
      exact hdisj hmem (List.mem_map_of_mem _ hr)
    rw [hpother _ hnm]
    rfl
  have hq3 : ∀ r ∈ post, rowKey strip norm r ∉
      (pre.foldl (AnswerList.preStep strip norm)
        AnswerList.empty).used := by
    intro r hr hmem
    rw [hpu] at hmem
    exact absurd hmem (List.not_mem_nil _)
  obtain ⟨hqi, hqu, hqother, hqself⟩ := postFold_char strip norm post
    (pre.foldl (AnswerList.preStep strip norm) AnswerList.empty)
    hpost hq1 hq2 hq3 hndq
  refine save_char strip norm pre post _ hpre hpost hdisj ?_ ?_ ?_
  · rw [hqi, hpi]
    rfl
  · intro x
    rw [hqu x]
    constructor
    · intro h
      rcases h with h | h
      · rw [hpu] at h
        exact absurd h (List.not_mem_nil x)
      · exact h
    · exact Or.inr
  · intro r hr
    rcases List.mem_append.mp hr with hr2 | hr2
    · have hnm : rowKey strip norm r ∉ post.map (rowKey strip norm) := by
        intro hmem
        exact hdisj (List.mem_map_of_mem _ hr2) hmem
      rw [hqother _ hnm]
      exact hpself r hr2 hndp
    · exact hqself r hr2

/-- Witness for C4 at a concrete two-entry input. -/
theorem save_load_round_trip_spec_witness :
    (AnswerList.load_from_tabular_rows (fun s => s) (fun s => s)
        ([["A", "a"]] ++ [[]] ++ [["B", "b"]])).save_to_tabular =
      [["A", "a"]] ++ [[]] ++ [["B", "b"]] :=
  save_load_round_trip_spec (fun s => s) (fun s => s)
    [["A", "a"]] [["B", "b"]]
    (by
      intro r hr
      rw [List.mem_singleton] at hr
      subst hr
      exact ⟨by decide, by decide, by decide, by decide⟩)
    (by
      intro r hr
      rw [List.mem_singleton] at hr
      subst hr
      exact ⟨by decide, by decide, by decide, by decide⟩)
    (by decide)
